import Mathlib

/-!
Verification of the docker-layer-optimizer core: the two Dockerfile parsers
(`src/dockerfile-parser.ts`, `src/dockerfile-parser.js`), the TypeScript
`CacheOptimizer` rule engine (`src/cache-optimizer.ts`), the JavaScript
`CacheRulesEngine` (`src/cache-rules.js`) and the suggestion aggregation of
`src/analyzer.js`.  The JavaScript/TypeScript sources are embedded as
executable Lean definitions; all string primitives are modelled after the
ECMAScript operations the sources use (split, trim, toUpperCase, startsWith,
endsWith, slice, indexOf, includes), implemented by structural recursion over
the character list so that every definition evaluates inside the kernel.
-/

/-! ## ECMAScript string primitives -/

def listPrefixEq : List Char → List Char → Bool
  | [], _ => true
  | _ :: _, [] => false
  | p :: ps, c :: cs => p == c && listPrefixEq ps cs

/-- Occurrence of `pat` anywhere in the list (JavaScript `String.prototype.includes`). -/
def subOccurs : List Char → List Char → Bool
  | pat, [] => listPrefixEq pat []
  | pat, c :: cs => listPrefixEq pat (c :: cs) || subOccurs pat cs

def strContains (s pat : String) : Bool := subOccurs pat.toList s.toList

def splitCharGo (sep : Char) : List Char → List Char → List String
  | [], acc => [acc.reverse.asString]
  | c :: cs, acc =>
    if c == sep then acc.reverse.asString :: splitCharGo sep cs []
    else splitCharGo sep cs (c :: acc)

/-- JavaScript `s.split(sep)` with a single-character separator. -/
def splitChar (sep : Char) (s : String) : List String := splitCharGo sep s.toList []

/-- JavaScript `String.prototype.trim`. -/
def trimStr (s : String) : String :=
  (((s.toList.dropWhile Char.isWhitespace).reverse.dropWhile Char.isWhitespace).reverse).asString

/-- JavaScript `String.prototype.toUpperCase` (ASCII range, which is all the sources use). -/
def upperStr (s : String) : String := (s.toList.map Char.toUpper).asString

def startsWithStr (s pre : String) : Bool := listPrefixEq pre.toList s.toList

def endsWithStr (s suf : String) : Bool := listPrefixEq suf.toList.reverse s.toList.reverse

def strLen (s : String) : Nat := s.toList.length

def dropRightStr (s : String) (n : Nat) : String := (s.toList.take (s.toList.length - n)).asString

/-- JavaScript `String.prototype.slice` with its negative-index convention. -/
def jsSlice (s : String) (start stop : Int) : String :=
  let n : Int := strLen s
  let st := if start < 0 then max (n + start) 0 else min start n
  let en := if stop < 0 then max (n + stop) 0 else min stop n
  if st < en then ((s.toList.drop st.toNat).take (en - st).toNat).asString else ""

/-- One-argument `String.prototype.slice` (to the end of the string). -/
def jsSliceFrom (s : String) (start : Int) : String := jsSlice s start (strLen s)

/-- JavaScript `String.prototype.indexOf` for a single character: index or `-1`. -/
def jsIndexOfChar (s : String) (c : Char) : Int :=
  match s.toList.findIdx? (· == c) with
  | some i => (i : Int)
  | none => -1

/-- The `-1`-convention wrapper for `Array.prototype.findIndex` / `indexOf` results. -/
def idxOrNeg : Option Nat → Int
  | some i => (i : Int)
  | none => -1

/-- Splitting on the regular expression `/\s+/`: a run of whitespace is one
separator; a leading or trailing run contributes an empty field.  The second
argument accumulates the pending field, the flag records whether we are inside
a separator run. -/
def jsSplitGo : List Char → List Char → Bool → List String
  | [], acc, false => [acc.reverse.asString]
  | [], _, true => [""]
  | c :: cs, acc, false =>
    if c.isWhitespace then acc.reverse.asString :: jsSplitGo cs [] true
    else jsSplitGo cs (c :: acc) false
  | c :: cs, acc, true =>
    if c.isWhitespace then jsSplitGo cs acc true
    else jsSplitGo cs [c] false

def jsSplitWs (s : String) : List String := jsSplitGo s.toList [] false

/-- JavaScript `Array.prototype.join(' ')`. -/
def joinSpace : List String → String
  | [] => ""
  | [x] => x
  | x :: y :: xs => x ++ " " ++ joinSpace (y :: xs)

/-- JavaScript `s.split(sep)` with a multi-character separator, fuelled so the
recursion is structural; the fuel is initialised to the length of the string,
which a split can never exhaust. -/
def splitSepGo (sep : List Char) : Nat → List Char → List Char → List String
  | _, [], acc => [acc.reverse.asString]
  | 0, l, acc => [(acc.reverse ++ l).asString]
  | fuel + 1, c :: cs, acc =>
    if listPrefixEq sep (c :: cs) then
      acc.reverse.asString :: splitSepGo sep fuel ((c :: cs).drop sep.length) []
    else splitSepGo sep fuel cs (c :: acc)

def splitSep (sep : String) (s : String) : List String :=
  splitSepGo sep.toList s.toList.length s.toList []

/-- JavaScript truthiness of a string-or-undefined value: `undefined` and the
empty string are falsy. -/
def jsTruthy : Option String → Bool
  | some s => s != ""
  | none => false

/-- JavaScript `a || d` where `a` is a string-or-undefined and `d` a string. -/
def jsOrD : Option String → String → String
  | some s, d => if s == "" then d else s
  | none, d => d

/-- JavaScript `a || b` where both operands are string-or-undefined. -/
def jsOrOpt (a b : Option String) : Option String := if jsTruthy a then a else b

/-! ## The TypeScript parser (`src/dockerfile-parser.ts`) -/

namespace TS

structure Layer where
  type : String
  instruction : String
  arguments : List String
  «from» : Option String := none
  «as» : Option String := none
  stageName : Option String := none
  lineNumber : Nat
  raw : String
deriving DecidableEq

structure Stage where
  name : String
  «from» : Option String
  «as» : String
  layers : List Layer
  startLineNumber : Nat
deriving DecidableEq

structure ParseResult where
  layers : List Layer
  stages : List Stage
  hasMultiStage : Bool
  baseImages : List (Option String)
deriving DecidableEq

/-- The `instructions` set of `DockerfileParser` (the source lists `ARG` twice;
a `Set` ignores the duplicate, and so does `List.contains`). -/
def instructionTable : List String :=
  ["FROM", "RUN", "CMD", "LABEL", "MAINTAINER", "EXPOSE", "ENV", "ADD", "COPY",
   "ENTRYPOINT", "VOLUME", "USER", "WORKDIR", "ARG", "ONBUILD", "STOPSIGNAL",
   "HEALTHCHECK", "SHELL", "ARG"]

/-- The `FROM` argument loop of `parseLine`: walks the argument array; an
`AS`/`--AS` token (re)assigns `as`/`stageName` from the following token, any
other token that is not a `--` flag fills `from` while `from` is still falsy. -/
def fromScan : List String → Option String → Option String → Option String × Option String
  | [], f, a => (f, a)
  | x :: rest, f, a =>
    if upperStr x == "--AS" || upperStr x == "AS" then fromScan rest f rest.head?
    else if !jsTruthy f && !startsWithStr x "--" then fromScan rest (some x) a
    else fromScan rest f a

/-- Method `DockerfileParser.parseLine`: split on `/\s+/`, uppercase the first token,
reject directives outside the instruction table, and fill the `FROM` fields. -/
def parseLine (table : List String) (line : String) (lineNumber : Nat) : Option Layer :=
  let parts := jsSplitWs line
  let instruction := upperStr (parts.headD "")
  let args := parts.tail
  if !table.contains instruction then none
  else if instruction == "FROM" then
    let p := fromScan args none none
    some { type := instruction, instruction := parts.headD "", arguments := args,
           «from» := p.1, «as» := p.2, stageName := p.2,
           lineNumber := lineNumber, raw := line }
  else
    some { type := instruction, instruction := parts.headD "", arguments := args,
           lineNumber := lineNumber, raw := line }

/-- The line scanner of `DockerfileParser.parse`, as a two-state machine: in the
normal state a trimmed line is skipped (blank/comment), emitted, or — when it
ends in a backslash — opens a continuation carrying the first physical line's
number; in the continuation state the pending text drops its backslash, gains a
space, absorbs the next line when it is neither blank nor a comment, and the
logical line is emitted as soon as it no longer ends in a backslash (so a
blank or comment line consumed mid-continuation also terminates it, exactly as
the source's `while (fullLine.endsWith('\\'))` loop does).  Exhausting the
input inside a continuation flushes the pending line. -/
def scanLines : List String → Nat → Option (String × Nat) → List (String × Nat)
  | [], _, none => []
  | [], _, some p => [(dropRightStr p.1 1 ++ " ", p.2)]
  | l :: rest, idx, none =>
    let line := trimStr l
    if line == "" || startsWithStr line "#" then scanLines rest (idx + 1) none
    else if endsWithStr line "\\" then scanLines rest (idx + 1) (some (line, idx + 1))
    else (line, idx + 1) :: scanLines rest (idx + 1) none
  | l :: rest, idx, some p =>
    let fl1 := dropRightStr p.1 1 ++ " "
    let nl := trimStr l
    let fl2 := if nl != "" && !startsWithStr nl "#" then fl1 ++ nl else fl1
    if endsWithStr fl2 "\\" then scanLines rest (idx + 1) (some (fl2, p.2))
    else (fl2, p.2) :: scanLines rest (idx + 1) none

structure ScanState where
  layers : List Layer := []
  stagesRev : List Stage := []
  baseImages : List (Option String) := []
deriving DecidableEq

/-- The expression `layer.arguments[0]?.split(':')[0] || layer.arguments[0]`. -/
def baseImageOf (layer : Layer) : Option String :=
  match layer.arguments.head? with
  | none => none
  | some a =>
    let h := (splitChar ':' a).headD ""
    if h == "" then some a else some h

/-- JavaScript `Set.add`: insertion-ordered, deduplicating. -/
def addBaseImage (l : List (Option String)) (b : Option String) : List (Option String) :=
  if l.contains b then l else l ++ [b]

/-- One iteration of the layer/stage bookkeeping in `DockerfileParser.parse`:
every layer is appended to the global list; a `FROM` layer opens a new stage
(whose `layers` list starts empty) and records the base image; any other layer
is appended to the current stage — the most recently opened one — when a stage
exists, and is held by no stage otherwise. -/
def applyLayer (st : ScanState) (layer : Layer) : ScanState :=
  let st1 : ScanState := { st with layers := st.layers ++ [layer] }
  if layer.type == "FROM" then
    let stage : Stage :=
      { name := jsOrD layer.«as» ("stage_" ++ toString st1.stagesRev.length),
        «from» := jsOrOpt layer.«from» layer.arguments.head?,
        «as» := jsOrD layer.«as» "",
        layers := [],
        startLineNumber := layer.lineNumber }
    { st1 with stagesRev := stage :: st1.stagesRev,
               baseImages := addBaseImage st1.baseImages (baseImageOf layer) }
  else
    match st1.stagesRev with
    | [] => st1
    | cur :: rest => { st1 with stagesRev := { cur with layers := cur.layers ++ [layer] } :: rest }

def foldLayers (st : ScanState) (table : List String) (logical : List (String × Nat)) : ScanState :=
  logical.foldl
    (fun st p =>
      match parseLine table p.1 p.2 with
      | none => st
      | some layer => applyLayer st layer) st

/-- Method `DockerfileParser.parse`, parametrised by the instruction table held by the
parser instance. -/
def parseWith (table : List String) (content : String) : ParseResult :=
  let st := foldLayers {} table (scanLines (splitChar '\n' content) 0 none)
  { layers := st.layers, stages := st.stagesRev.reverse,
    hasMultiStage := decide (st.stagesRev.reverse.length > 1),
    baseImages := st.baseImages }

def parse (content : String) : ParseResult := parseWith instructionTable content

end TS

/-! ## The JavaScript parser (`src/dockerfile-parser.js`) -/

namespace JS

structure Instruction where
  directive : String
  arguments : String
  raw : String
  lineNum : Nat
  continuation : Bool := false
deriving DecidableEq

structure Stage where
  name : String
  «from» : Option String := none
  «as» : Option String := none
  instructions : List Instruction := []
deriving DecidableEq

structure ParserResult where
  instructions : List Instruction
  stages : List Stage
deriving DecidableEq

/-- Method `DockerfileParser.parseInstruction`: JSON-array lines, continuation lines
(backslash stripped via `slice(..., -1)`, flagged but not merged), bare
directives without arguments, and the plain `directive arguments` format. -/
def parseInstruction (line : String) (lineNum : Nat) : Instruction :=
  if startsWithStr line "[" && endsWithStr line "]" then
    { directive := upperStr (trimStr (jsSlice line 0 (jsIndexOfChar line '['))),
      arguments := trimStr (jsSliceFrom line (jsIndexOfChar line '[')),
      raw := line, lineNum := lineNum }
  else if endsWithStr line "\\" then
    { directive := upperStr (trimStr (jsSlice line 0 (jsIndexOfChar line ' '))),
      arguments := trimStr (jsSlice line (jsIndexOfChar line ' ' + 1) (-1)),
      raw := line, lineNum := lineNum, continuation := true }
  else
    let firstSpace := jsIndexOfChar line ' '
    if firstSpace == -1 then
      { directive := upperStr line, arguments := "", raw := line, lineNum := lineNum }
    else
      { directive := upperStr (trimStr (jsSlice line 0 firstSpace)),
        arguments := trimStr (jsSliceFrom line (firstSpace + 1)),
        raw := line, lineNum := lineNum }

structure FromInfo where
  base : String
  «as» : Option String
  name : Option String
deriving DecidableEq

/-- Method `DockerfileParser.parseFromInstruction`: the base image is the first
whitespace-split token of the arguments; a case-insensitive `AS` token followed
by another token names the stage. -/
def parseFromInstruction (instruction : Instruction) : FromInfo :=
  let parts := jsSplitWs instruction.arguments
  let base := parts.headD ""
  match (parts.map upperStr).findIdx? (· == "AS") with
  | some i =>
    if i + 1 < parts.length then
      { base := base, «as» := parts.get? (i + 1), name := parts.get? (i + 1) }
    else { base := base, «as» := none, name := none }
  | none => { base := base, «as» := none, name := none }

/-- The loop body of `DockerfileParser.parse`.  A `FROM` instruction pushes the
current stage only when that stage's `from` field is truthy (so the implicit
initial `base` stage, and any stage opened by a `FROM` without an argument, is
discarded); the new stage contains the `FROM` instruction itself.  Every other
instruction is appended to the current stage.  On exhaustion the current stage
is pushed when its `from` is truthy or it holds at least one instruction. -/
def parseLoop : List String → Nat → Stage → Nat → List Stage → List Instruction → ParserResult
  | [], _, cur, _, stages, instrs =>
    { instructions := instrs,
      stages := if jsTruthy cur.«from» || decide (cur.instructions.length > 0)
                then stages ++ [cur] else stages }
  | l :: rest, idx, cur, stageIndex, stages, instrs =>
    let line := trimStr l
    if line == "" || startsWithStr line "#" then
      parseLoop rest (idx + 1) cur stageIndex stages instrs
    else
      let instruction := parseInstruction line (idx + 1)
      if upperStr instruction.directive == "FROM" then
        let pushed := if jsTruthy cur.«from» then (stages ++ [cur], stageIndex + 1)
                      else (stages, stageIndex)
        let info := parseFromInstruction instruction
        parseLoop rest (idx + 1)
          { name := jsOrD info.name ("stage_" ++ toString pushed.2),
            «from» := some info.base, «as» := info.«as»,
            instructions := [instruction] }
          pushed.2 pushed.1 (instrs ++ [instruction])
      else
        parseLoop rest (idx + 1)
          { cur with instructions := cur.instructions ++ [instruction] }
          stageIndex stages (instrs ++ [instruction])

/-- Constructor call `new DockerfileParser(content)`: split on newlines and run the scan with
the implicit starting stage `{ name: 'base', instructions: [], from: null }`. -/
def parse (content : String) : ParserResult :=
  parseLoop (splitChar '\n' content) 0 { name := "base" } 0 [] []

def getInstructionsByType (p : ParserResult) (directive : String) : List Instruction :=
  p.instructions.filter (fun i => upperStr i.directive == upperStr directive)

def getRunInstructions (p : ParserResult) : List Instruction := getInstructionsByType p "RUN"

def getCopyInstructions (p : ParserResult) : List Instruction := getInstructionsByType p "COPY"

def getAddInstructions (p : ParserResult) : List Instruction := getInstructionsByType p "ADD"

def isMultiStage (p : ParserResult) : Bool := decide (p.stages.length > 1)

end JS

/-! ## Shared severity ranking (`{ high: 0, medium: 1, low: 2 }`) -/

/-- The severity lookup table used by both sort comparators.  The engines only
ever produce the three listed labels; any other label is mapped to an
out-of-range rank to keep the function total. -/
def severityRank (s : String) : Int :=
  if s == "high" then 0 else if s == "medium" then 1 else if s == "low" then 2 else 3

/-- JavaScript `Array.prototype.slice(start)` on arrays. -/
def jsArrayDrop {α : Type} (l : List α) (start : Int) : List α :=
  if start < 0 then l.drop (Int.toNat ((l.length : Int) + start)) else l.drop (Int.toNat start)

/-- JavaScript `Array.prototype.indexOf`. -/
def jsIndexOfElem {α : Type} [BEq α] (l : List α) (x : α) : Int :=
  idxOrNeg (l.findIdx? (· == x))

/-! ## The TypeScript rule engine (`src/cache-optimizer.ts`) -/

namespace CacheOpt

structure CacheOptimization where
  lineNumber : Int
  severity : String
  issue : String
  suggestion : String
  before : String
  after : String
deriving DecidableEq

/-- The capture of `/apt-get install -y (.+)/`: the first occurrence of the
literal pattern followed by at least one character captures everything after
it; with no such occurrence the `|| ''` fallback yields the empty string. -/
def installCaptureGo : List Char → List Char → Option (List Char)
  | _, [] => none
  | pat, c :: cs =>
    if listPrefixEq pat (c :: cs) && decide (pat.length < (c :: cs).length) then
      some ((c :: cs).drop pat.length)
    else installCaptureGo pat cs

def installCapture (s : String) : String :=
  match installCaptureGo "apt-get install -y ".toList s.toList with
  | some rest => rest.asString
  | none => ""

/-- Rule `combineAptGetUpdateInstall`: scan adjacent layer pairs. -/
def combineAptGetUpdateInstallScan : List TS.Layer → List CacheOptimization
  | current :: next :: rest =>
    (if current.type == "RUN" && next.type == "RUN" then
      let currentCmd := joinSpace current.arguments
      let nextCmd := joinSpace next.arguments
      if strContains currentCmd "apt-get update" && !strContains currentCmd "apt-get install" &&
         (strContains nextCmd "apt-get install" || strContains nextCmd "apt-get") then
        [{ lineNumber := (current.lineNumber : Int), severity := "high",
           issue := "apt-get update and install are in separate layers",
           suggestion := "Combine update and install into a single RUN to prevent cache invalidation issues",
           before := current.raw ++ "\n" ++ next.raw,
           after := "RUN apt-get update && apt-get install -y " ++ installCapture nextCmd
                      ++ " \\\n    && rm -rf /var/lib/apt/lists/*" }]
      else []
    else []) ++ combineAptGetUpdateInstallScan (next :: rest)
  | _ => []

def combineAptGetUpdateInstall (pr : TS.ParseResult) : List CacheOptimization :=
  combineAptGetUpdateInstallScan pr.layers

/-- Rule `movePackageJsonEarly`: note that the emitted `lineNumber` is
`copyDotIndex`, the position of the layer in the layers array, not the source
line number of that layer. -/
def movePackageJsonEarly (pr : TS.ParseResult) : List CacheOptimization :=
  match pr.layers.find? (fun l => l.type == "COPY" && l.arguments.contains "package*.json") with
  | none => []
  | some copyLayer =>
    let copyDotIndex := idxOrNeg (pr.layers.findIdx?
      (fun l => l.type == "COPY" && (l.arguments.contains "." || l.arguments.contains "*")))
    let copyPkgIndex := jsIndexOfElem pr.layers copyLayer
    if copyPkgIndex > -1 && copyDotIndex > -1 && copyPkgIndex > copyDotIndex then
      [{ lineNumber := copyDotIndex, severity := "high",
         issue := "All source files are copied before package.json",
         suggestion := "Copy package.json first, then install dependencies, then copy the rest. This maximizes layer caching.",
         before := copyLayer.raw,
         after := "COPY package*.json ./\nRUN npm ci --only=production\nCOPY . ." }]
    else []

/-- Rule `orderRunByStability` (the `&& ... || ...` precedence is the source's). -/
def orderRunByStability (pr : TS.ParseResult) : List CacheOptimization :=
  (pr.layers.filter (fun l => l.type == "ENV")).filterMap (fun envLayer =>
    let envIndex := jsIndexOfElem pr.layers envLayer
    let hasRunAfter := (jsArrayDrop pr.layers (envIndex + 1)).any (fun l =>
      (l.type == "RUN" && strContains (joinSpace l.arguments) "$\x7b")
        || strContains (joinSpace l.arguments) "$")
    if hasRunAfter then
      some { lineNumber := (envLayer.lineNumber : Int), severity := "medium",
             issue := "ENV instruction may be overridden by subsequent RUN commands",
             suggestion := "Move ENV declarations after all RUN commands that modify environment, or use ARG for build-time values",
             before := envLayer.raw,
             after := "# Move this ENV after RUN if it should be runtime-only\n" ++ envLayer.raw }
    else none)

def dockerignoreSuggestion (pr : TS.ParseResult) : List CacheOptimization :=
  match pr.layers.find? (fun l => l.type == "COPY" && l.arguments.contains ".") with
  | none => []
  | some copyDot =>
    if !(pr.layers.any (fun l => strContains l.raw "dockerignore")) then
      [{ lineNumber := (copyDot.lineNumber : Int), severity := "medium",
         issue := "Using COPY . . without verifying .dockerignore",
         suggestion := "Create a .dockerignore file to exclude unnecessary files (node_modules, .git, etc.) to reduce context size",
         before := copyDot.raw,
         after := "# Add .dockerignore with: node_modules, .git, npm-debug.log, etc.\n" ++ copyDot.raw }]
    else []

def useBuildCacheMounts (pr : TS.ParseResult) : List CacheOptimization :=
  pr.layers.filterMap (fun layer =>
    if layer.type == "RUN" then
      let cmd := joinSpace layer.arguments
      let hasNpmOrYarn := strContains cmd "npm install" || strContains cmd "npm ci"
                            || strContains cmd "yarn install"
      let hasCacheMount := strContains cmd "--mount=type=cache"
      if hasNpmOrYarn && !hasCacheMount then
        some { lineNumber := (layer.lineNumber : Int), severity := "medium",
               issue := "npm/yarn install without cache mount",
               suggestion := "Use BuildKit cache mounts to persist package manager cache between builds",
               before := layer.raw,
               after := "RUN --mount=type=cache,target=/root/.npm npm ci --only=production" }
      else none
    else none)

def splitLongRunCommands (pr : TS.ParseResult) : List CacheOptimization :=
  pr.layers.filterMap (fun layer =>
    if layer.type == "RUN" then
      let cmd := joinSpace layer.arguments
      if decide ((splitSep " && " cmd).length > 3) then
        let ops := (splitSep " && " cmd).map trimStr
        if ops.any (fun op => strContains op "install" || strContains op "download") then
          some { lineNumber := (layer.lineNumber : Int), severity := "low",
                 issue := "Many operations in a single RUN command",
                 suggestion := "Consider splitting into multiple RUN layers for better cache granularity, especially for independent operations",
                 before := layer.raw,
                 after := "# Split into separate RUN layers for better caching\nRUN <operation-1>\nRUN <operation-2>" }
        else none
      else none
    else none)

/-- Rule `useChainedDeps`: the counter is only reset inside the reporting branch, and
a trailing run of COPY layers is never flushed — both quirks of the source. -/
def useChainedDepsLoop : List TS.Layer → Nat → List CacheOptimization → List CacheOptimization
  | [], _, acc => acc
  | layer :: rest, consecutiveCopy, acc =>
    if layer.type == "COPY" then useChainedDepsLoop rest (consecutiveCopy + 1) acc
    else if decide (consecutiveCopy > 1) then
      useChainedDepsLoop rest 0 (acc ++
        [{ lineNumber := (layer.lineNumber : Int) - (consecutiveCopy : Int), severity := "low",
           issue := toString consecutiveCopy ++ " consecutive COPY instructions",
           suggestion := "Combine COPY instructions where possible to reduce layer count",
           before := "[multiple COPY lines]",
           after := "COPY src1 src2 src3 dest/" }])
    else useChainedDepsLoop rest consecutiveCopy acc

def useChainedDeps (pr : TS.ParseResult) : List CacheOptimization :=
  useChainedDepsLoop pr.layers 0 []

/-- The `rules` array of `CacheOptimizer`, run in declaration order with the
findings concatenated. -/
def runRules (pr : TS.ParseResult) : List CacheOptimization :=
  combineAptGetUpdateInstall pr ++ movePackageJsonEarly pr ++ orderRunByStability pr ++
  dockerignoreSuggestion pr ++ useBuildCacheMounts pr ++ splitLongRunCommands pr ++
  useChainedDeps pr

def sortLe (a b : CacheOptimization) : Bool :=
  decide (severityRank a.severity ≤ severityRank b.severity)

/-- Method `CacheOptimizer.optimize`: run the rules, then sort by severity rank with
`Array.prototype.sort`, which ECMAScript requires to be stable — modelled by
`List.mergeSort`. -/
def optimize (pr : TS.ParseResult) : List CacheOptimization :=
  (runRules pr).mergeSort sortLe

end CacheOpt

/-! ## The JavaScript rule engine (`src/cache-rules.js`) -/

namespace Rules

structure Issue where
  lineNum : Int
  instruction : String
  reason : Option String := none
  suggestion : Option String := none
deriving DecidableEq

structure RuleResult where
  rule : String
  severity : String
  title : String
  description : String
  recommendation : String
  issues : List Issue
deriving DecidableEq

def packageInstallCombined (p : JS.ParserResult) : Option RuleResult :=
  let runs := JS.getRunInstructions p
  let installRuns := runs.filter (fun r =>
    let args := upperStr r.arguments
    strContains args "APT-GET INSTALL" || strContains args "YUM INSTALL"
      || strContains args "APK ADD")
  if installRuns.length == 0 then none
  else some
    { rule := "package-install-combined", severity := "high",
      title := "Combine package installations",
      description := "Package installation commands should be combined into a single RUN layer to reduce image size and improve caching",
      recommendation := "Combine all apt-get/yum/apk add commands into one RUN instruction",
      issues := installRuns.map (fun run =>
        { lineNum := (run.lineNum : Int), instruction := run.raw }) }

def runCleaned (p : JS.ParserResult) : Option RuleResult :=
  let runs := JS.getRunInstructions p
  let issues := (runs.map (fun run =>
    let args := upperStr run.arguments
    (if strContains args "APT-GET INSTALL" && !strContains args "RM -RF" then
       [({ lineNum := (run.lineNum : Int), instruction := run.raw,
           reason := some "Missing cleanup after apt-get install" } : Issue)]
     else []) ++
    (if strContains args "YUM INSTALL" && !strContains args "YUM CLEAN ALL" then
       [({ lineNum := (run.lineNum : Int), instruction := run.raw,
           reason := some "Missing cleanup after yum install" } : Issue)]
     else []))).flatten
  if issues.length == 0 then none
  else some
    { rule := "run-cleaned", severity := "medium",
      title := "Clean up package caches",
      description := "Package managers leave cache files that increase image size. Clean them up in the same RUN layer.",
      recommendation := "Add cleanup commands after package installations (e.g., apt-get clean, rm -rf /var/lib/apt/lists/*)",
      issues := issues }

/-- Rule `copyOrder`: the emitted `lineNum` is `srcIndex`, the position of the COPY
in the COPY-instruction array, not that instruction's source line number. -/
def copyOrder (p : JS.ParserResult) : Option RuleResult :=
  let copies := JS.getCopyInstructions p
  if copies.length < 2 then none
  else
    let pkgIndex := idxOrNeg (copies.findIdx? (fun c => strContains c.arguments "package.json"))
    let srcIndex := idxOrNeg (copies.findIdx?
      (fun c => strContains c.arguments "." || strContains c.arguments "src"))
    let issues : List Issue :=
      if pkgIndex != -1 && srcIndex != -1 && pkgIndex > srcIndex then
        [{ lineNum := srcIndex,
           instruction := (match copies.get? srcIndex.toNat with | some c => c.raw | none => ""),
           reason := some "Source files copied before package.json (breaks cache)" }]
      else []
    if issues.length == 0 then none
    else some
      { rule := "copy-order", severity := "high",
        title := "Order COPY by change frequency",
        description := "Copy files that change less frequently (like package.json) before files that change often (source code).",
        recommendation := "Move package.json COPY before source file COPY to leverage Docker layer caching",
        issues := issues }

def addVsCopy (p : JS.ParserResult) : Option RuleResult :=
  let adds := JS.getAddInstructions p
  if adds.length == 0 then none
  else some
    { rule := "add-vs-copy", severity := "low",
      title := "Prefer COPY over ADD",
      description := "ADD has automatic features that can be surprising. COPY is more explicit and predictable.",
      recommendation := "Use COPY for local files. Only use ADD when you need URL downloading or automatic extraction.",
      issues := adds.map (fun a =>
        { lineNum := (a.lineNum : Int), instruction := a.raw,
          suggestion := some "Consider using COPY instead unless you need ADD features (URL extraction, automatic tar extraction)" }) }

def multiStage (p : JS.ParserResult) : Option RuleResult :=
  if JS.isMultiStage p then none
  else if !(p.instructions.any (fun i =>
    let args := upperStr i.arguments
    strContains args "BUILD-ESSENTIAL" || strContains args "GCC" || strContains args "MAKE"))
  then none
  else some
    { rule := "multi-stage", severity := "medium",
      title := "Consider multi-stage builds",
      description := "Multi-stage builds can significantly reduce final image size by excluding build tools and dependencies.",
      recommendation := "Split your Dockerfile into build and runtime stages, copying only necessary artifacts.",
      issues := [{ lineNum := 1, instruction := "Single-stage build",
                   reason := some "Build tools are included in final image" }] }

def dockerignore (_ : JS.ParserResult) : Option RuleResult :=
  some
    { rule := "dockerignore", severity := "low",
      title := "Use .dockerignore file",
      description := "A .dockerignore file prevents unnecessary files from being sent to the Docker daemon, improving build speed.",
      recommendation := "Create a .dockerignore file to exclude node_modules, .git, and other unnecessary files.",
      issues := [] }

/-- The pair scan of `layerOrder`.  The source condition is
`current.directive === 'RUN' && ...includes('APT-GET UPDATE') && next.directive !== 'RUN'
|| !next...includes('APT-GET INSTALL')` — JavaScript parses this as
`(A && B && C) || D`, so the issue fires for any pair whose second member does
not mention `apt-get install` (the operator-precedence quirk the design notes
flag). -/
def layerOrderScan : List JS.Instruction → List Issue
  | current :: next :: rest =>
    (if (current.directive == "RUN" && strContains (upperStr current.arguments) "APT-GET UPDATE"
          && next.directive != "RUN")
        || !strContains (upperStr next.arguments) "APT-GET INSTALL" then
       [{ lineNum := (current.lineNum : Int), instruction := current.raw,
          reason := some "apt-get update should be in same layer as install" }]
     else []) ++ layerOrderScan (next :: rest)
  | _ => []

def layerOrder (p : JS.ParserResult) : Option RuleResult :=
  let issues := layerOrderScan p.instructions
  if issues.length == 0 then none
  else some
    { rule := "layer-order", severity := "medium",
      title := "Combine update and install",
      description := "apt-get update and apt-get install should be in the same RUN layer to prevent cached updates from going stale.",
      recommendation := "Combine apt-get update && apt-get install in one RUN command with &&",
      issues := issues }

def aptUpdateTogether (p : JS.ParserResult) : Option RuleResult :=
  let runs := JS.getRunInstructions p
  let updates := runs.filter (fun r => strContains (upperStr r.arguments) "APT-GET UPDATE")
  let installs := runs.filter (fun r => strContains (upperStr r.arguments) "APT-GET INSTALL")
  if updates.length != installs.length && decide (updates.length > 0) then
    some
      { rule := "apt-update-together", severity := "medium",
        title := "Mismatched update and install",
        description := "apt-get update should be paired with apt-get install in the same RUN layer.",
        recommendation := "Combine apt-get update and install commands with &&",
        issues := updates.map (fun u =>
          { lineNum := (u.lineNum : Int), instruction := u.raw,
            reason := some "Update without corresponding install" }) }
  else none

def npmCache (p : JS.ParserResult) : Option RuleResult :=
  let runs := JS.getRunInstructions p
  let npmInstalls := runs.filter (fun r => strContains (upperStr r.arguments) "NPM INSTALL")
  if npmInstalls.length == 0 then none
  else
    let issues := npmInstalls.filter (fun r => !strContains r.arguments "--mount")
    if issues.length == 0 then none
    else some
      { rule := "npm-cache", severity := "low",
        title := "Consider npm cache mounts",
        description := "Using BuildKit cache mounts with npm install can significantly speed up builds.",
        recommendation := "Add --mount=type=cache,target=/root/.npm to npm install commands (requires BuildKit)",
        issues := issues.map (fun i =>
          { lineNum := (i.lineNum : Int), instruction := i.raw,
            reason := some "Could benefit from cache mount" }) }

def wildcardCopies (p : JS.ParserResult) : Option RuleResult :=
  let copies := JS.getCopyInstructions p
  let issues := copies.filter (fun c => strContains c.arguments "*")
  if issues.length == 0 then none
  else some
    { rule := "wildcard-copies", severity := "low",
      title := "Avoid wildcard COPY patterns",
      description := "Wildcards in COPY can include unintended files and break cache invalidation.",
      recommendation := "Specify exact file paths instead of using wildcards when possible.",
      issues := issues.map (fun i =>
        { lineNum := (i.lineNum : Int), instruction := i.raw,
          reason := some "Wildcard pattern may include unintended files" }) }

/-- The `rules` array of `CacheRulesEngine`, in declaration order. -/
def ruleList : List (JS.ParserResult → Option RuleResult) :=
  [packageInstallCombined, runCleaned, copyOrder, addVsCopy, multiStage,
   dockerignore, layerOrder, aptUpdateTogether, npmCache, wildcardCopies]

/-- Method `CacheRulesEngine.analyze`: run every rule, keeping non-null results in
rule order. -/
def analyze (p : JS.ParserResult) : List RuleResult :=
  (ruleList.map (fun rule => rule p)).filterMap id

structure Suggestion where
  severity : String
  title : String
  description : String
  recommendation : String
  lines : List Int
deriving DecidableEq

def sortLe (a b : RuleResult) : Bool :=
  decide (severityRank a.severity ≤ severityRank b.severity)

/-- The stable severity sort performed by `Analyzer.generateSuggestions` on a
copy of the rule results. -/
def sortedIssues (p : JS.ParserResult) : List RuleResult :=
  (analyze p).mergeSort sortLe

/-- Method `Analyzer.generateSuggestions`. -/
def generateSuggestions (p : JS.ParserResult) : List Suggestion :=
  (sortedIssues p).map (fun issue =>
    { severity := issue.severity, title := issue.title, description := issue.description,
      recommendation := issue.recommendation, lines := issue.issues.map (·.lineNum) })

end Rules

/-! ## Reusable instances (for the statelessness contract) -/

/-- The state a reusable `DockerfileParser` (TypeScript) instance carries: its
only field is the read-only `instructions` table. -/
structure ParserInstance where
  instructions : List String

/-- Constructor `new DockerfileParser()`. -/
def newParserInstance : ParserInstance := { instructions := TS.instructionTable }

/-- A `parse` call on a reusable parser instance: the method reads the
instance's directive table and writes no field, so the instance is returned
unchanged. -/
def parseCall (inst : ParserInstance) (content : String) : TS.ParseResult × ParserInstance :=
  (TS.parseWith inst.instructions content, inst)

/-- The state a reusable `CacheOptimizer` instance carries: its `rules` array
is a fixed list of bound methods, so the instance holds no mutable data. -/
structure OptimizerInstance where
  mk ::

/-- An `optimize` call on a reusable optimizer instance. -/
def optimizeCall (inst : OptimizerInstance) (pr : TS.ParseResult) :
    List CacheOpt.CacheOptimization × OptimizerInstance :=
  (CacheOpt.optimize pr, inst)

/-! ## Placeholder values used by witness statements -/

def emptyLayer : TS.Layer :=
  { type := "", instruction := "", arguments := [], lineNumber := 0, raw := "" }

def emptyStage : TS.Stage :=
  { name := "", «from» := none, «as» := "", layers := [], startLineNumber := 0 }

def emptyOptimization : CacheOpt.CacheOptimization :=
  { lineNumber := 0, severity := "", issue := "", suggestion := "", before := "", after := "" }

def emptyRuleResult : Rules.RuleResult :=
  { rule := "", severity := "", title := "", description := "", recommendation := "", issues := [] }

def emptyJSInstruction : JS.Instruction :=
  { directive := "", arguments := "", raw := "", lineNum := 0 }

def emptyJSStage : JS.Stage := { name := "" }

/-- The instructions contributed by the remaining lines, starting at 0-based
line index `idx`: each non-blank, non-comment trimmed line yields exactly one
instruction. -/
def JS.instrLines : List String → Nat → List JS.Instruction
  | [], _ => []
  | l :: rest, idx =>
    (let line := trimStr l
     if line == "" || startsWithStr line "#" then []
     else [JS.parseInstruction line (idx + 1)]) ++ JS.instrLines rest (idx + 1)

/-! ## Parser invariants: TypeScript stage counting -/

theorem TS.applyLayer_stage_count (st : TS.ScanState) (layer : TS.Layer)
    (h : st.stagesRev.length = st.layers.countP (fun l => l.type == "FROM")) :
    (TS.applyLayer st layer).stagesRev.length
      = (TS.applyLayer st layer).layers.countP (fun l => l.type == "FROM") := by
  unfold TS.applyLayer
  by_cases hf : layer.type == "FROM"
  · simp [hf, List.countP_append, h, List.countP_cons]
  · simp only [hf]
    cases hsr : st.stagesRev with
    | nil => simp [hf, List.countP_append, h ▸ congrArg List.length hsr, List.countP_cons, h, hsr]
    | cons cur rest =>
      simp [hf, List.countP_append, List.countP_cons, ← h, hsr]

theorem TS.foldLayers_stage_count (logical : List (String × Nat)) (table : List String)
    (st : TS.ScanState)
    (h : st.stagesRev.length = st.layers.countP (fun l => l.type == "FROM")) :
    (TS.foldLayers st table logical).stagesRev.length
      = (TS.foldLayers st table logical).layers.countP (fun l => l.type == "FROM") := by
  induction logical generalizing st with
  | nil => exact h
  | cons p rest ih =>
    show (TS.foldLayers (match TS.parseLine table p.1 p.2 with
      | none => st
      | some layer => TS.applyLayer st layer) table rest).stagesRev.length = _
    cases hp : TS.parseLine table p.1 p.2 with
    | none => simpa [TS.foldLayers, List.foldl_cons, hp] using ih st h
    | some layer =>
      simpa [TS.foldLayers, List.foldl_cons, hp] using
        ih (TS.applyLayer st layer) (TS.applyLayer_stage_count st layer h)

/-! ## Parser invariants: JavaScript instruction sequence -/

/-- The instruction produced by a physical line does not depend on the line
number except through its `lineNum` field. -/
theorem JS.parseInstruction_shift (line : String) (n : Nat) :
    JS.parseInstruction line n = { JS.parseInstruction line 0 with lineNum := n } := by
  unfold JS.parseInstruction
  dsimp only []
  repeat' split
  all_goals rfl

theorem JS.parseLoop_instructions (lines : List String) :
    ∀ (idx : Nat) (cur : JS.Stage) (si : Nat) (stages : List JS.Stage)
      (instrs : List JS.Instruction),
      (JS.parseLoop lines idx cur si stages instrs).instructions
        = instrs ++ JS.instrLines lines idx := by
  induction lines with
  | nil => intro idx cur si stages instrs; simp [JS.parseLoop, JS.instrLines]
  | cons l rest ih =>
    intro idx cur si stages instrs
    simp only [JS.parseLoop, JS.instrLines]
    by_cases hb : (trimStr l == "" || startsWithStr (trimStr l) "#") = true
    · simp [hb, ih]
    · by_cases hf : (upperStr (JS.parseInstruction (trimStr l) (idx + 1)).directive == "FROM") = true
      · simp [hb, hf, ih]
      · simp [hb, hf, ih]

/-- The stage count produced by the JavaScript parse loop, assuming every
`FROM` instruction still to come carries a non-empty (truthy) base image.  With
`k` `FROM` instructions remaining, the loop closes `k` further stages plus one
for the current stage when its `from` is truthy; with none remaining, exactly
one stage survives iff the current stage is truthy, already holds an
instruction, or one more instruction line remains. -/
theorem JS.parseLoop_stages_length (lines : List String) :
    ∀ (idx : Nat) (cur : JS.Stage) (si : Nat) (stages : List JS.Stage)
      (instrs : List JS.Instruction),
      (∀ i ∈ JS.instrLines lines idx, upperStr i.directive = "FROM" →
        (JS.parseFromInstruction i).base ≠ "") →
      (JS.parseLoop lines idx cur si stages instrs).stages.length
        = stages.length +
          (if (JS.instrLines lines idx).countP (fun i => upperStr i.directive == "FROM") = 0 then
            (if jsTruthy cur.«from» || decide (cur.instructions.length > 0)
                || decide ((JS.instrLines lines idx).length > 0) then 1 else 0)
          else
            (if jsTruthy cur.«from» then 1 else 0) +
              (JS.instrLines lines idx).countP (fun i => upperStr i.directive == "FROM")) := by
  induction lines with
  | nil =>
    intro idx cur si stages instrs _
    simp only [JS.parseLoop, JS.instrLines, List.countP_nil, List.length_nil]
    by_cases ht : (jsTruthy cur.«from» || decide (cur.instructions.length > 0)) = true
    · simp [ht]
    · simp [ht]
  | cons l rest ih =>
    intro idx cur si stages instrs H
    simp only [JS.parseLoop, JS.instrLines]
    by_cases hb : (trimStr l == "" || startsWithStr (trimStr l) "#") = true
    · simp only [hb, if_pos, List.nil_append]
      exact ih (idx + 1) cur si stages instrs (by
        intro i hi
        exact H i (by simp [JS.instrLines, hb, hi]))
    · have Htail : ∀ i ∈ JS.instrLines rest (idx + 1), upperStr i.directive = "FROM" →
          (JS.parseFromInstruction i).base ≠ "" := by
        intro i hi
        exact H i (by simp [JS.instrLines, hb, hi])
      by_cases hf : (upperStr (JS.parseInstruction (trimStr l) (idx + 1)).directive == "FROM") = true
      · have Hhead : (JS.parseFromInstruction (JS.parseInstruction (trimStr l) (idx + 1))).base ≠ "" := by
          apply H (JS.parseInstruction (trimStr l) (idx + 1))
          · simp [JS.instrLines, hb]
          · exact beq_iff_eq.mp hf
        have htruthy : jsTruthy (some (JS.parseFromInstruction
            (JS.parseInstruction (trimStr l) (idx + 1))).base) = true := by
          simp [jsTruthy, Hhead]
        simp only [hb, if_neg, Bool.not_eq_true, hf, if_pos, List.countP_append, List.countP_cons,
          List.length_append, List.length_cons, List.countP_nil, List.length_nil, hf,
          List.singleton_append]
        by_cases hcur : jsTruthy cur.«from» = true
        · simp only [hcur, if_pos]
          rw [ih (idx + 1) _ (si + 1) (stages ++ [cur]) (instrs ++ [JS.parseInstruction (trimStr l) (idx + 1)]) Htail]
          simp only [htruthy, List.length_append, List.length_cons, List.length_nil]
          by_cases hN : (JS.instrLines rest (idx + 1)).countP (fun i => upperStr i.directive == "FROM") = 0
          · simp [hN, hf]
          · simp [hN, hf, List.countP_cons]
            omega
        · have hcur' : jsTruthy cur.«from» = false := by simpa using hcur
          simp only [hcur', Bool.false_eq_true, if_false]
          rw [ih (idx + 1) _ si stages (instrs ++ [JS.parseInstruction (trimStr l) (idx + 1)]) Htail]
          simp only [htruthy]
          by_cases hN : (JS.instrLines rest (idx + 1)).countP (fun i => upperStr i.directive == "FROM") = 0
          · simp [hN, hf, hcur']
          · simp [hN, hf, hcur', List.countP_cons]
            omega
      · simp only [hb, if_neg, Bool.not_eq_true, hf, if_false, List.countP_append,
          List.countP_cons, List.length_append, List.length_cons, List.countP_nil,
          List.length_nil, List.singleton_append]
        rw [ih (idx + 1) _ si stages (instrs ++ [JS.parseInstruction (trimStr l) (idx + 1)]) Htail]
        simp only [List.length_append, List.length_cons]
        by_cases hN : (JS.instrLines rest (idx + 1)).countP (fun i => upperStr i.directive == "FROM") = 0
        · simp [hN, hf, List.countP_cons]
        · simp [hN, hf, List.countP_cons]

theorem TS.parse_stages_from_count (content : String) :
    (TS.parse content).stages.length
      = (TS.parse content).layers.countP (fun l => l.type == "FROM") := by
  have h := TS.foldLayers_stage_count (TS.scanLines (splitChar '\n' content) 0 none)
    TS.instructionTable {} rfl
  show (TS.foldLayers {} TS.instructionTable
      (TS.scanLines (splitChar '\n' content) 0 none)).stagesRev.reverse.length
    = (TS.foldLayers {} TS.instructionTable
      (TS.scanLines (splitChar '\n' content) 0 none)).layers.countP (fun l => l.type == "FROM")
  rw [List.length_reverse]
  exact h

theorem TS.parse_hasMultiStage (content : String) :
    (TS.parse content).hasMultiStage = decide ((TS.parse content).stages.length > 1) := rfl

theorem JS.parse_instrLines (content : String) :
    (JS.parse content).instructions = JS.instrLines (splitChar '\n' content) 0 := by
  simpa using JS.parseLoop_instructions (splitChar '\n' content) 0 { name := "base" } 0 [] []

theorem JS.parse_stages_count (content : String)
    (H : ∀ i ∈ (JS.parse content).instructions, upperStr i.directive = "FROM" →
      (JS.parseFromInstruction i).base ≠ "") :
    (JS.parse content).stages.length
      = (if (JS.parse content).instructions.countP
            (fun i => upperStr i.directive == "FROM") = 0 then
          (if (JS.parse content).instructions.length = 0 then 0 else 1)
        else
          (JS.parse content).instructions.countP (fun i => upperStr i.directive == "FROM")) := by
  have hins := JS.parse_instrLines content
  rw [hins] at H ⊢
  have h := JS.parseLoop_stages_length (splitChar '\n' content) 0 { name := "base" } 0 [] [] H
  show (JS.parseLoop (splitChar '\n' content) 0 { name := "base" } 0 [] []).stages.length = _
  rw [h]
  simp only [jsTruthy, List.length_nil, Nat.zero_add, decide_eq_true_eq, Bool.false_or,
    Nat.lt_irrefl, decide_False]
  split_ifs <;> simp_all

theorem JS.parse_isMultiStage (content : String)
    (H : ∀ i ∈ (JS.parse content).instructions, upperStr i.directive = "FROM" →
      (JS.parseFromInstruction i).base ≠ "") :
    JS.isMultiStage (JS.parse content)
      = decide ((JS.parse content).instructions.countP
          (fun i => upperStr i.directive == "FROM") > 1) := by
  show decide ((JS.parse content).stages.length > 1) = _
  rw [JS.parse_stages_count content H]
  split_ifs with h1 h2 <;> simp <;> omega

/-! ## Parser invariants: JavaScript stage membership -/

theorem JS.parseInstruction_lineNum (line : String) (n : Nat) :
    (JS.parseInstruction line n).lineNum = n := by
  rw [JS.parseInstruction_shift]

theorem JS.instrLines_lineNum (lines : List String) :
    ∀ idx : Nat, (∀ i ∈ JS.instrLines lines idx, idx + 1 ≤ i.lineNum)
      ∧ (JS.instrLines lines idx).Pairwise (fun a b => a.lineNum < b.lineNum) := by
  induction lines with
  | nil => intro idx; simp [JS.instrLines]
  | cons l rest ih =>
    intro idx
    simp only [JS.instrLines]
    by_cases hb : (trimStr l == "" || startsWithStr (trimStr l) "#") = true
    · simp only [hb, if_pos, List.nil_append]
      refine ⟨fun i hi => ?_, (ih (idx + 1)).2⟩
      exact le_trans (Nat.le_succ _) ((ih (idx + 1)).1 i hi)
    · simp only [hb, if_neg, Bool.not_eq_true, List.singleton_append]
      constructor
      · intro i hi
        rcases List.mem_cons.mp hi with h | h
        · rw [h, JS.parseInstruction_lineNum]
        · exact le_trans (Nat.le_succ _) ((ih (idx + 1)).1 i h)
      · refine List.Pairwise.cons ?_ (ih (idx + 1)).2
        intro b hb'
        rw [JS.parseInstruction_lineNum]
        exact lt_of_lt_of_le (Nat.lt_succ_self _) ((ih (idx + 1)).1 b hb')

theorem JS.parse_instructions_nodup (content : String) :
    (JS.parse content).instructions.Nodup := by
  rw [JS.parse_instrLines]
  refine List.Pairwise.imp ?_ (JS.instrLines_lineNum (splitChar '\n' content) 0).2
  intro a b hab
  intro hEq
  rw [hEq] at hab
  exact Nat.lt_irrefl _ hab

theorem JS.parseLoop_flatten_sublist (lines : List String) :
    ∀ (idx : Nat) (cur : JS.Stage) (si : Nat) (stages : List JS.Stage)
      (instrs : List JS.Instruction),
      List.Sublist ((stages.map JS.Stage.instructions).flatten ++ cur.instructions) instrs →
      List.Sublist
        ((JS.parseLoop lines idx cur si stages instrs).stages.map JS.Stage.instructions).flatten
        (JS.parseLoop lines idx cur si stages instrs).instructions := by
  induction lines with
  | nil =>
    intro idx cur si stages instrs h
    simp only [JS.parseLoop]
    split
    · simpa [List.flatten_append] using h
    · exact (List.sublist_append_left _ _).trans h
  | cons l rest ih =>
    intro idx cur si stages instrs h
    simp only [JS.parseLoop]
    by_cases hb : (trimStr l == "" || startsWithStr (trimStr l) "#") = true
    · simp only [hb, if_pos]
      exact ih (idx + 1) cur si stages instrs h
    · simp only [hb, if_neg, Bool.not_eq_true]
      by_cases hf : (upperStr (JS.parseInstruction (trimStr l) (idx + 1)).directive == "FROM") = true
      · simp only [hf, if_pos]
        by_cases hcur : jsTruthy cur.«from» = true
        · simp only [hcur, if_pos]
          refine ih (idx + 1) _ (si + 1) (stages ++ [cur]) _ ?_
          simp only [List.map_append, List.flatten_append, List.map_cons, List.map_nil,
            List.flatten_cons, List.flatten_nil, List.append_nil]
          exact List.Sublist.append h (List.Sublist.refl _)
        · have hcur' : jsTruthy cur.«from» = false := by simpa using hcur
          simp only [hcur', Bool.false_eq_true, if_false]
          refine ih (idx + 1) _ si stages _ ?_
          exact List.Sublist.append ((List.sublist_append_left _ _).trans h) (List.Sublist.refl _)
      · simp only [hf, if_false]
        refine ih (idx + 1) _ si stages _ ?_
        show List.Sublist ((stages.map JS.Stage.instructions).flatten ++ (cur.instructions ++ _)) _
        rw [← List.append_assoc]
        exact List.Sublist.append h (List.Sublist.refl _)

theorem JS.parse_flatten_sublist (content : String) :
    List.Sublist (((JS.parse content).stages.map JS.Stage.instructions).flatten)
      (JS.parse content).instructions := by
  exact JS.parseLoop_flatten_sublist (splitChar '\n' content) 0 { name := "base" } 0 [] []
    (by simp)

theorem JS.stages_countP_le_count (stages : List JS.Stage) (i : JS.Instruction) :
    stages.countP (fun st => decide (i ∈ st.instructions))
      ≤ ((stages.map JS.Stage.instructions).flatten.count i) := by
  induction stages with
  | nil => simp
  | cons st rest ih =>
    simp only [List.countP_cons, List.map_cons, List.flatten_cons, List.count_append]
    by_cases hm : i ∈ st.instructions
    · have : 0 < st.instructions.count i := List.count_pos_iff.mpr hm
      simp only [hm, decide_True, if_pos]
      omega
    · simp only [hm, decide_False, Bool.false_eq_true, if_false]
      omega

theorem JS.parse_at_most_one (content : String) (i : JS.Instruction) :
    (JS.parse content).stages.countP (fun st => decide (i ∈ st.instructions)) ≤ 1 := by
  refine le_trans (JS.stages_countP_le_count _ i) (le_trans
    ((JS.parse_flatten_sublist content).count_le i) ?_)
  exact List.nodup_iff_count_le_one.mp (JS.parse_instructions_nodup content) i

/-- When the current stage is truthy, or still empty with the next instruction
a `FROM`, and every upcoming `FROM` has a truthy base, the loop loses no
instruction: the stages' instruction lists concatenate to the instruction
sequence. -/
theorem JS.parseLoop_flatten_eq (lines : List String) :
    ∀ (idx : Nat) (cur : JS.Stage) (si : Nat) (stages : List JS.Stage)
      (instrs : List JS.Instruction),
      ((stages.map JS.Stage.instructions).flatten ++ cur.instructions = instrs) →
      (jsTruthy cur.«from» = true ∨ (cur.instructions = [] ∧
        ∀ i, (JS.instrLines lines idx).head? = some i → upperStr i.directive = "FROM")) →
      (∀ i ∈ JS.instrLines lines idx, upperStr i.directive = "FROM" →
        (JS.parseFromInstruction i).base ≠ "") →
      ((JS.parseLoop lines idx cur si stages instrs).stages.map JS.Stage.instructions).flatten
        = (JS.parseLoop lines idx cur si stages instrs).instructions := by
  induction lines with
  | nil =>
    intro idx cur si stages instrs h hdisj _
    simp only [JS.parseLoop]
    split
    · simpa [List.flatten_append] using h
    · rename_i hpush
      have hemp : cur.instructions = [] := by
        simp only [Bool.or_eq_true, not_or, decide_eq_true_eq, Nat.not_lt, Nat.le_zero] at hpush
        exact List.length_eq_zero.mp hpush.2
      rw [← h, hemp, List.append_nil]
  | cons l rest ih =>
    intro idx cur si stages instrs h hdisj H
    simp only [JS.parseLoop]
    by_cases hb : (trimStr l == "" || startsWithStr (trimStr l) "#") = true
    · simp only [hb, if_pos]
      refine ih (idx + 1) cur si stages instrs h ?_ ?_
      · rcases hdisj with hT | ⟨he, hh⟩
        · exact Or.inl hT
        · refine Or.inr ⟨he, ?_⟩
          intro i hi
          apply hh
          simpa [JS.instrLines, hb] using hi
      · intro i hi
        exact H i (by simp [JS.instrLines, hb, hi])
    · have Htail : ∀ i ∈ JS.instrLines rest (idx + 1), upperStr i.directive = "FROM" →
          (JS.parseFromInstruction i).base ≠ "" := by
        intro i hi
        exact H i (by simp [JS.instrLines, hb, hi])
      by_cases hf : (upperStr (JS.parseInstruction (trimStr l) (idx + 1)).directive == "FROM") = true
      · have Hhead : (JS.parseFromInstruction (JS.parseInstruction (trimStr l) (idx + 1))).base ≠ "" := by
          apply H (JS.parseInstruction (trimStr l) (idx + 1))
          · simp [JS.instrLines, hb]
          · exact beq_iff_eq.mp hf
        have htruthy : jsTruthy (some (JS.parseFromInstruction
            (JS.parseInstruction (trimStr l) (idx + 1))).base) = true := by
          simp [jsTruthy, Hhead]
        simp only [hf, if_pos, hb, Bool.not_eq_true, if_neg]
        by_cases hcur : jsTruthy cur.«from» = true
        · simp only [hcur, if_pos]
          refine ih (idx + 1) _ (si + 1) (stages ++ [cur]) _ ?_ (Or.inl htruthy) Htail
          simp only [List.map_append, List.flatten_append, List.map_cons, List.map_nil,
            List.flatten_cons, List.flatten_nil, List.append_nil]
          rw [h]
        · have hcur' : jsTruthy cur.«from» = false := by simpa using hcur
          have hemp : cur.instructions = [] := by
            rcases hdisj with hT | ⟨he, _⟩
            · rw [hT] at hcur'; cases hcur'
            · exact he
          simp only [hcur', Bool.false_eq_true, if_false]
          refine ih (idx + 1) _ si stages _ ?_ (Or.inl htruthy) Htail
          rw [← h, hemp, List.append_nil]
      · have hcurT : jsTruthy cur.«from» = true := by
          rcases hdisj with hT | ⟨_, hh⟩
          · exact hT
          · exfalso
            have := hh (JS.parseInstruction (trimStr l) (idx + 1)) (by simp [JS.instrLines, hb])
            rw [← beq_iff_eq] at this
            rw [this] at hf
            exact hf rfl
        simp only [hf, if_false, hb, Bool.not_eq_true, if_neg]
        refine ih (idx + 1) _ si stages _ ?_ (Or.inl hcurT) Htail
        rw [← h, List.append_assoc]

theorem JS.parse_flatten_eq (content : String)
    (hfirst : ∀ i, (JS.parse content).instructions.head? = some i →
      upperStr i.directive = "FROM")
    (hbase : ∀ i ∈ (JS.parse content).instructions, upperStr i.directive = "FROM" →
      (JS.parseFromInstruction i).base ≠ "") :
    ((JS.parse content).stages.map JS.Stage.instructions).flatten
      = (JS.parse content).instructions := by
  have hins := JS.parse_instrLines content
  refine JS.parseLoop_flatten_eq (splitChar '\n' content) 0 { name := "base" } 0 [] [] rfl ?_ ?_
  · refine Or.inr ⟨rfl, ?_⟩
    intro i hi
    exact hfirst i (by rw [hins]; exact hi)
  · intro i hi
    exact hbase i (by rw [hins]; exact hi)

theorem JS.parse_exactly_one (content : String)
    (hfirst : ∀ i, (JS.parse content).instructions.head? = some i →
      upperStr i.directive = "FROM")
    (hbase : ∀ i ∈ (JS.parse content).instructions, upperStr i.directive = "FROM" →
      (JS.parseFromInstruction i).base ≠ "")
    (i : JS.Instruction) (hi : i ∈ (JS.parse content).instructions) :
    (JS.parse content).stages.countP (fun st => decide (i ∈ st.instructions)) = 1 := by
  refine le_antisymm (JS.parse_at_most_one content i) ?_
  have hmem : i ∈ ((JS.parse content).stages.map JS.Stage.instructions).flatten := by
    rw [JS.parse_flatten_eq content hfirst hbase]
    exact hi
  rcases List.mem_flatten.mp hmem with ⟨l, hl, hil⟩
  rcases List.mem_map.mp hl with ⟨st, hst, rfl⟩
  have : 0 < (JS.parse content).stages.countP (fun st => decide (i ∈ st.instructions)) :=
    List.countP_pos_iff.mpr ⟨st, hst, by simpa using hil⟩
  omega

/-! ## Parser invariants: TypeScript layers and stages -/

theorem TS.applyLayer_layers (st : TS.ScanState) (layer : TS.Layer) :
    (TS.applyLayer st layer).layers = st.layers ++ [layer] := by
  unfold TS.applyLayer
  dsimp only
  split
  · rfl
  · split <;> rfl

theorem TS.foldLayers_layers (logical : List (String × Nat)) (table : List String) :
    ∀ st : TS.ScanState,
      (TS.foldLayers st table logical).layers
        = st.layers ++ logical.filterMap (fun p => TS.parseLine table p.1 p.2) := by
  induction logical with
  | nil => intro st; simp [TS.foldLayers]
  | cons p rest ih =>
    intro st
    show (TS.foldLayers _ table rest).layers = _
    rw [ih]
    cases hp : TS.parseLine table p.1 p.2 with
    | none => simp [hp, List.filterMap_cons]
    | some layer => simp [hp, TS.applyLayer_layers, List.filterMap_cons, List.append_assoc]

theorem TS.parseLine_some {table : List String} {line : String} {n : Nat} {layer : TS.Layer}
    (h : TS.parseLine table line n = some layer) :
    layer.type ∈ table ∧ layer.lineNumber = n := by
  unfold TS.parseLine at h
  dsimp only at h
  split at h
  · cases h
  · rename_i hc
    have hmem : upperStr ((jsSplitWs line).headD "") ∈ table := by
      apply List.mem_of_elem_eq_true
      have := Bool.of_not_eq_true hc
      simpa [List.contains] using this
    split at h <;> (cases h; exact ⟨hmem, rfl⟩)

theorem TS.scanLines_snd (lines : List String) :
    ∀ (idx : Nat) (st : Option (String × Nat)),
      (∀ p, st = some p → p.2 ≤ idx + 1) →
      (∀ q ∈ TS.scanLines lines idx st,
        (match st with | some p => p.2 | none => idx + 1) ≤ q.2)
      ∧ (TS.scanLines lines idx st).Pairwise (fun a b => a.2 < b.2) := by
  induction lines with
  | nil =>
    intro idx st h
    cases st with
    | none => simp [TS.scanLines]
    | some p => simp [TS.scanLines]
  | cons l rest ih =>
    intro idx st h
    cases st with
    | none =>
      simp only [TS.scanLines]
      by_cases hb : (trimStr l == "" || startsWithStr (trimStr l) "#") = true
      · simp only [hb, if_pos]
        have := ih (idx + 1) none (by intro p hp; cases hp)
        exact ⟨fun q hq => le_trans (Nat.le_succ _) (this.1 q hq), this.2⟩
      · simp only [hb, if_neg, Bool.not_eq_true]
        by_cases he : endsWithStr (trimStr l) "\\" = true
        · simp only [he, if_pos]
          have := ih (idx + 1) (some (trimStr l, idx + 1))
            (by intro p hp; cases hp; exact Nat.le_succ _)
          exact ⟨fun q hq => this.1 q hq, this.2⟩
        · simp only [he, Bool.false_eq_true, if_false]
          have := ih (idx + 1) none (by intro p hp; cases hp)
          refine ⟨?_, ?_⟩
          · intro q hq
            rcases List.mem_cons.mp hq with hq | hq
            · rw [hq]
            · exact le_trans (Nat.le_succ _) (this.1 q hq)
          · exact List.Pairwise.cons
              (fun q hq => lt_of_lt_of_le (Nat.lt_succ_self _) (this.1 q hq)) this.2
    | some p =>
      have hp : p.2 ≤ idx + 1 := h p rfl
      simp only [TS.scanLines]
      by_cases he : endsWithStr
          (if trimStr l != "" && !startsWithStr (trimStr l) "#"
           then dropRightStr p.1 1 ++ " " ++ trimStr l
           else dropRightStr p.1 1 ++ " ") "\\" = true
      · simp only [he, if_pos]
        have := ih (idx + 1)
          (some ((if (trimStr l != "" && !startsWithStr (trimStr l) "#") = true
            then dropRightStr p.1 1 ++ " " ++ trimStr l
            else dropRightStr p.1 1 ++ " "), p.2))
          (by intro q hq; cases hq; exact le_trans hp (Nat.le_succ _))
        exact ⟨fun q hq => this.1 q hq, this.2⟩
      · simp only [he, Bool.false_eq_true, if_false]
        have := ih (idx + 1) none (by intro q hq; cases hq)
        refine ⟨?_, ?_⟩
        · intro q hq
          rcases List.mem_cons.mp hq with hq | hq
          · rw [hq]
          · exact le_trans hp (le_trans (Nat.le_succ _) (this.1 q hq))
        · exact List.Pairwise.cons
            (fun q hq => lt_of_le_of_lt hp (lt_of_lt_of_le (Nat.lt_succ_self _) (this.1 q hq)))
            this.2

theorem TS.filterMap_parseLine_pairwise (table : List String) (logical : List (String × Nat))
    (h : logical.Pairwise (fun a b => a.2 < b.2)) :
    (logical.filterMap (fun p => TS.parseLine table p.1 p.2)).Pairwise
      (fun a b => a.lineNumber < b.lineNumber) := by
  induction logical with
  | nil => simp
  | cons p rest ih =>
    rw [List.filterMap_cons]
    cases hp : TS.parseLine table p.1 p.2 with
    | none => exact ih h.tail
    | some layer =>
      refine List.Pairwise.cons ?_ (ih h.tail)
      intro b hb
      rcases List.mem_filterMap.mp hb with ⟨q, hq, hbq⟩
      rw [(TS.parseLine_some hp).2, (TS.parseLine_some hbq).2]
      exact List.rel_of_pairwise_cons h hq

theorem TS.parse_layers_eq (content : String) :
    (TS.parse content).layers
      = (TS.scanLines (splitChar '\n' content) 0 none).filterMap
          (fun p => TS.parseLine TS.instructionTable p.1 p.2) := by
  show (TS.foldLayers {} TS.instructionTable (TS.scanLines (splitChar '\n' content) 0 none)).layers = _
  rw [TS.foldLayers_layers]
  rfl

theorem TS.parse_layers_nodup (content : String) : (TS.parse content).layers.Nodup := by
  rw [TS.parse_layers_eq]
  have hscan := (TS.scanLines_snd (splitChar '\n' content) 0 none (by intro p hp; cases hp)).2
  refine List.Pairwise.imp ?_ (TS.filterMap_parseLine_pairwise TS.instructionTable _ hscan)
  intro a b hab hEq
  rw [hEq] at hab
  exact Nat.lt_irrefl _ hab

theorem TS.applyLayer_stageInv (st : TS.ScanState) (layer : TS.Layer)
    (h : ∀ stage ∈ st.stagesRev, ∀ l ∈ stage.layers, l.type ≠ "FROM" ∧ l ∈ st.layers) :
    ∀ stage ∈ (TS.applyLayer st layer).stagesRev, ∀ l ∈ stage.layers,
      l.type ≠ "FROM" ∧ l ∈ (TS.applyLayer st layer).layers := by
  have hl := TS.applyLayer_layers st layer
  unfold TS.applyLayer at hl ⊢
  dsimp only at hl ⊢
  by_cases hf : (layer.type == "FROM") = true
  · simp only [hf, if_pos] at hl ⊢
    intro stage hst l hls
    rcases List.mem_cons.mp hst with hst | hst
    · rw [hst] at hls
      cases hls
    · exact ⟨(h stage hst l hls).1, List.mem_append_left _ (h stage hst l hls).2⟩
  · simp only [hf, Bool.false_eq_true, if_false] at hl ⊢
    cases hsr : st.stagesRev with
    | nil =>
      simp only [hsr]
      intro stage hst
      cases hst
    | cons cur rest =>
      simp only [hsr]
      intro stage hst l hls
      have hne : layer.type ≠ "FROM" := by
        intro hEq
        rw [hEq] at hf
        exact hf rfl
      rcases List.mem_cons.mp hst with hst | hst
      · rw [hst] at hls
        rcases List.mem_append.mp hls with hl' | hl'
        · have := h cur (hsr ▸ List.mem_cons_self _ _) l hl'
          exact ⟨this.1, List.mem_append_left _ this.2⟩
        · rw [List.mem_singleton.mp hl']
          exact ⟨hne, List.mem_append_right _ (List.mem_singleton.mpr rfl)⟩
      · have := h stage (hsr ▸ List.mem_cons_of_mem _ hst) l hls
        exact ⟨this.1, List.mem_append_left _ this.2⟩

theorem TS.foldLayers_cons (st : TS.ScanState) (table : List String) (p : String × Nat)
    (rest : List (String × Nat)) :
    TS.foldLayers st table (p :: rest)
      = TS.foldLayers
          (match TS.parseLine table p.1 p.2 with
            | none => st
            | some layer => TS.applyLayer st layer) table rest := rfl

theorem TS.foldLayers_stageInv (logical : List (String × Nat)) (table : List String) :
    ∀ st : TS.ScanState,
      (∀ stage ∈ st.stagesRev, ∀ l ∈ stage.layers, l.type ≠ "FROM" ∧ l ∈ st.layers) →
      ∀ stage ∈ (TS.foldLayers st table logical).stagesRev,
        ∀ l ∈ stage.layers, l.type ≠ "FROM" ∧ l ∈ (TS.foldLayers st table logical).layers := by
  induction logical with
  | nil => intro st h; exact h
  | cons p rest ih =>
    intro st h
    rw [TS.foldLayers_cons]
    cases hp : TS.parseLine table p.1 p.2 with
    | none =>
      simp only [hp]
      exact ih st h
    | some layer =>
      simp only [hp]
      exact ih (TS.applyLayer st layer) (TS.applyLayer_stageInv st layer h)

theorem TS.parse_stage_layers (content : String) :
    ∀ stage ∈ (TS.parse content).stages, ∀ l ∈ stage.layers,
      l.type ≠ "FROM" ∧ l ∈ (TS.parse content).layers := by
  intro stage hst l hls
  have hst' : stage ∈ (TS.foldLayers {} TS.instructionTable
      (TS.scanLines (splitChar '\n' content) 0 none)).stagesRev := by
    exact List.mem_reverse.mp hst
  exact TS.foldLayers_stageInv _ TS.instructionTable {} (by intro st hmem; cases hmem)
    stage hst' l hls

theorem TS.applyLayer_flatten (st : TS.ScanState) (layer : TS.Layer)
    (h : List.Sublist ((st.stagesRev.reverse.map TS.Stage.layers).flatten) st.layers) :
    List.Sublist (((TS.applyLayer st layer).stagesRev.reverse.map TS.Stage.layers).flatten)
      (TS.applyLayer st layer).layers := by
  have hl := TS.applyLayer_layers st layer
  rw [hl]
  unfold TS.applyLayer
  dsimp only
  by_cases hf : (layer.type == "FROM") = true
  · simp only [hf, if_pos]
    simp only [List.reverse_cons, List.map_append, List.flatten_append, List.map_cons,
      List.map_nil, List.flatten_cons, List.flatten_nil, List.append_nil]
    exact h.trans (List.sublist_append_left _ _)
  · simp only [hf, Bool.false_eq_true, if_false]
    cases hsr : st.stagesRev with
    | nil =>
      simp only [hsr]
      simp
    | cons cur rest =>
      simp only [hsr]
      simp only [List.reverse_cons, List.map_append, List.flatten_append, List.map_cons,
        List.map_nil, List.flatten_cons, List.flatten_nil, List.append_nil]
      rw [← List.append_assoc]
      refine List.Sublist.append ?_ (List.Sublist.refl _)
      have : (rest.reverse.map TS.Stage.layers).flatten ++ cur.layers
          = ((st.stagesRev.reverse.map TS.Stage.layers).flatten) := by
        rw [hsr]
        simp [List.reverse_cons, List.flatten_append]
      rw [this]
      exact h

theorem TS.foldLayers_flatten (logical : List (String × Nat)) (table : List String) :
    ∀ st : TS.ScanState,
      List.Sublist ((st.stagesRev.reverse.map TS.Stage.layers).flatten) st.layers →
      List.Sublist (((TS.foldLayers st table logical).stagesRev.reverse.map TS.Stage.layers).flatten)
        (TS.foldLayers st table logical).layers := by
  induction logical with
  | nil => intro st h; exact h
  | cons p rest ih =>
    intro st h
    rw [TS.foldLayers_cons]
    cases hp : TS.parseLine table p.1 p.2 with
    | none =>
      simp only [hp]
      exact ih st h
    | some layer =>
      simp only [hp]
      exact ih (TS.applyLayer st layer) (TS.applyLayer_flatten st layer h)

theorem TS.layers_countP_le_count (stages : List TS.Stage) (l : TS.Layer) :
    stages.countP (fun st => decide (l ∈ st.layers))
      ≤ ((stages.map TS.Stage.layers).flatten.count l) := by
  induction stages with
  | nil => simp
  | cons st rest ih =>
    simp only [List.countP_cons, List.map_cons, List.flatten_cons, List.count_append]
    by_cases hm : l ∈ st.layers
    · have : 0 < st.layers.count l := List.count_pos_iff.mpr hm
      simp only [hm, decide_True, if_pos]
      omega
    · simp only [hm, decide_False, Bool.false_eq_true, if_false]
      omega

theorem TS.layer_at_most_one (content : String) (l : TS.Layer) :
    (TS.parse content).stages.countP (fun st => decide (l ∈ st.layers)) ≤ 1 := by
  have hsub : List.Sublist (((TS.parse content).stages.map TS.Stage.layers).flatten)
      (TS.parse content).layers := by
    exact TS.foldLayers_flatten _ TS.instructionTable {} (by simp)
  refine le_trans (TS.layers_countP_le_count _ l) (le_trans (hsub.count_le l) ?_)
  exact List.nodup_iff_count_le_one.mp (TS.parse_layers_nodup content) l

/-! ## Claim theorems -/

/-- C1 (counterexample): the claim fails as stated.  On the empty input, which
contains zero `FROM` directives, both parsers return zero stages, not the one
empty stage the claim requires; and on `FROM\nFROM x` (two `FROM` directives,
the first without an argument) the JavaScript parser returns one stage, not
two, because a stage whose base image is the empty string is falsy and is
silently discarded instead of being pushed. -/
theorem c1_stage_count_counterexample :
    ((TS.parse "").layers.countP (fun l => l.type == "FROM") = 0
      ∧ (TS.parse "").stages.length ≠ 1
      ∧ (JS.parse "").stages.length ≠ 1)
    ∧ ((JS.parse "FROM\nFROM x").instructions.countP
          (fun i => upperStr i.directive == "FROM") = 2
      ∧ (JS.parse "FROM\nFROM x").stages.length ≠ 2) := by
  decide

/-- C1 (amended): for the TypeScript parser the stage count equals the number
of `FROM` layers for every N (including N = 0, which yields zero stages, not
one), and the multi-stage flag is true iff that count exceeds one.  For the
JavaScript parser the same holds provided every `FROM` instruction carries a
non-empty base image; when N = 0 it yields one stage holding all instructions
if at least one instruction exists and zero stages otherwise, and its
multi-stage flag is true iff N > 1. -/
theorem c1_stage_count_amended (content : String)
    (H : ∀ i ∈ (JS.parse content).instructions, upperStr i.directive = "FROM" →
      (JS.parseFromInstruction i).base ≠ "") :
    ((TS.parse content).stages.length
        = (TS.parse content).layers.countP (fun l => l.type == "FROM")
      ∧ (TS.parse content).hasMultiStage
        = decide ((TS.parse content).layers.countP (fun l => l.type == "FROM") > 1))
    ∧ ((JS.parse content).stages.length
        = (if (JS.parse content).instructions.countP
              (fun i => upperStr i.directive == "FROM") = 0 then
            (if (JS.parse content).instructions.length = 0 then 0 else 1)
          else
            (JS.parse content).instructions.countP (fun i => upperStr i.directive == "FROM"))
      ∧ JS.isMultiStage (JS.parse content)
        = decide ((JS.parse content).instructions.countP
            (fun i => upperStr i.directive == "FROM") > 1)) := by
  refine ⟨⟨TS.parse_stages_from_count content, ?_⟩,
    JS.parse_stages_count content H, JS.parse_isMultiStage content H⟩
  rw [TS.parse_hasMultiStage, TS.parse_stages_from_count]

/-- C1 (witness): the amended claim applied to a three-line multi-stage file
whose two `FROM` instructions both carry a base image. -/
theorem c1_stage_count_witness :
    (∀ i ∈ (JS.parse "FROM alpine AS one\nRUN x\nFROM busybox").instructions,
        upperStr i.directive = "FROM" → (JS.parseFromInstruction i).base ≠ "")
    ∧ (((TS.parse "FROM alpine AS one\nRUN x\nFROM busybox").stages.length
          = (TS.parse "FROM alpine AS one\nRUN x\nFROM busybox").layers.countP
              (fun l => l.type == "FROM")
        ∧ (TS.parse "FROM alpine AS one\nRUN x\nFROM busybox").hasMultiStage
          = decide ((TS.parse "FROM alpine AS one\nRUN x\nFROM busybox").layers.countP
              (fun l => l.type == "FROM") > 1))
      ∧ ((JS.parse "FROM alpine AS one\nRUN x\nFROM busybox").stages.length
          = (if (JS.parse "FROM alpine AS one\nRUN x\nFROM busybox").instructions.countP
                (fun i => upperStr i.directive == "FROM") = 0 then
              (if (JS.parse "FROM alpine AS one\nRUN x\nFROM busybox").instructions.length = 0
               then 0 else 1)
            else
              (JS.parse "FROM alpine AS one\nRUN x\nFROM busybox").instructions.countP
                (fun i => upperStr i.directive == "FROM"))
        ∧ JS.isMultiStage (JS.parse "FROM alpine AS one\nRUN x\nFROM busybox")
          = decide ((JS.parse "FROM alpine AS one\nRUN x\nFROM busybox").instructions.countP
              (fun i => upperStr i.directive == "FROM") > 1))) :=
  ⟨by decide, c1_stage_count_amended "FROM alpine AS one\nRUN x\nFROM busybox" (by decide)⟩

/-- C3 (counterexample): the claim fails as stated.  The JavaScript parser
never merges a continuation: `RUN a \` followed by `b` yields two instructions,
not one.  The TypeScript parser terminates a continuation at a blank (or
comment) line instead of skipping it and continuing: `RUN a \`, a blank line,
then `RUN b` yields two instructions instead of one merged one. -/
theorem c3_continuation_counterexample :
    (JS.parse "RUN a \\\nb").instructions.length ≠ 1
    ∧ (TS.parse "RUN a \\\n\nRUN b").layers.length ≠ 1 := by
  decide

/-- C3 (amended): in the TypeScript parser a line ending in the continuation
marker is concatenated with the immediately following line when that line is
neither blank nor a comment, repeating while the accumulated text still ends
in the marker, and the merged Instruction carries the first physical line's
number; in particular `RUN a \` then `b` parses to one RUN whose argument
tokens are `a b` at line 1.  A blank or comment line consumed mid-continuation
terminates the logical line instead of being skipped.  The JavaScript parser
does not merge at all: it emits the first line as its own instruction with the
backslash stripped and the continuation flag set. -/
theorem c3_continuation_amended :
    ((TS.parse "RUN a \\\nb").layers.map (fun l => (l.type, l.arguments, l.lineNumber, l.raw)))
      = [("RUN", ["a", "b"], 1, "RUN a  b")]
    ∧ ((TS.parse "RUN a \\\nb \\\nc").layers.map
        (fun l => (l.type, l.arguments, l.lineNumber, l.raw)))
      = [("RUN", ["a", "b", "c"], 1, "RUN a  b  c")]
    ∧ ((TS.parse "RUN a \\\n# c\nRUN b").layers.map (fun l => (l.type, l.lineNumber)))
      = [("RUN", 1), ("RUN", 3)]
    ∧ ((JS.parse "RUN a \\\nb").instructions.map
        (fun i => (i.directive, i.arguments, i.lineNum, i.continuation)))
      = [("RUN", "a", 1, true), ("B", "", 2, false)] := by
  decide

/-- C4 (confirmed): both parsers are total functions of the input text.  Every
layer the TypeScript parser keeps carries a directive from its instruction
table (unknown directives are dropped), a `FROM` without an argument still
opens a stage, an unknown leading directive yields no layer, and a
continuation marker dangling at end-of-file is flushed as a normal
instruction.  The JavaScript parser likewise absorbs a bare `FROM` and a
dangling continuation. -/
theorem c4_parse_total (content : String) :
    (∀ l ∈ (TS.parse content).layers, l.type ∈ TS.instructionTable)
    ∧ (TS.parse "FROM").stages.length = 1
    ∧ (TS.parse "FOO bar").layers = []
    ∧ ((TS.parse "RUN a \\").layers.map (fun l => (l.type, l.raw, l.lineNumber)))
        = [("RUN", "RUN a  ", 1)]
    ∧ (JS.parse "FROM").stages.length = 1
    ∧ ((JS.parse "RUN a \\").instructions.map
        (fun i => (i.directive, i.arguments, i.continuation))) = [("RUN", "a", true)] := by
  refine ⟨?_, by decide, by decide, by decide, by decide, by decide⟩
  intro l hl
  rw [TS.parse_layers_eq] at hl
  rcases List.mem_filterMap.mp hl with ⟨p, _, hp⟩
  exact (TS.parseLine_some hp).1

/-- C4 (witness): the invariant applied to a concrete layer of a concrete
parse. -/
theorem c4_parse_total_witness :
    (TS.parse "RUN x").layers.getD 0 emptyLayer ∈ (TS.parse "RUN x").layers
    ∧ ((TS.parse "RUN x").layers.getD 0 emptyLayer).type ∈ TS.instructionTable :=
  ⟨by decide, (c4_parse_total "RUN x").1 _ (by decide)⟩

/-- C6 (code bug): on `FROM node` / `COPY . .` / `COPY package.json .` the
JavaScript `copyOrder` rule does fire with high severity, but the issue's
`lineNum` field receives `srcIndex` — the position of the offending COPY in
the COPY-instruction array (0) — rather than that instruction's source line
number (2); the TypeScript `movePackageJsonEarly` has the same slip, emitting
`copyDotIndex` (here 1) instead of the `COPY . .` layer's line number (2). -/
theorem c6_copy_order_codebug :
    ((Rules.analyze (JS.parse "FROM node\nCOPY . .\nCOPY package.json .")).filterMap
      (fun r => if r.rule == "copy-order" then some (r.severity, r.issues.map (·.lineNum))
                else none))
      = [("high", [0])]
    ∧ ((JS.parse "FROM node\nCOPY . .\nCOPY package.json .").instructions.map
        JS.Instruction.lineNum) = [1, 2, 3]
    ∧ ((CacheOpt.movePackageJsonEarly
          (TS.parse "FROM node\nCOPY . .\nCOPY package*.json ./")).map
        (fun o => (o.severity, o.lineNumber))) = [("high", 1)]
    ∧ ((TS.parse "FROM node\nCOPY . .\nCOPY package*.json ./").layers.map
        TS.Layer.lineNumber) = [1, 2, 3] := by
  decide

/-- C9 (confirmed): parsing and rule evaluation are stateless and
deterministic.  Running `parse` twice on the same text through the same
reusable parser instance, and `optimize` twice through the same optimizer
instance, produces identical results, and neither call modifies its
instance. -/
theorem c9_stateless_determinism (inst : ParserInstance) (opt : OptimizerInstance)
    (content : String) :
    (parseCall inst content).1 = (parseCall (parseCall inst content).2 content).1
    ∧ (optimizeCall opt (parseCall inst content).1).1
        = (optimizeCall (optimizeCall opt (parseCall inst content).1).2
            (parseCall (parseCall inst content).2 content).1).1
    ∧ (parseCall inst content).2 = inst
    ∧ (optimizeCall opt (parseCall inst content).1).2 = opt :=
  ⟨rfl, rfl, rfl, rfl⟩

/-- C10 (confirmed): in every TypeScript parse result, a stage's `layers` list
contains only non-`FROM` layers, and each of them also appears in the global
layer sequence; the `FROM` layer that opens a stage is therefore held only by
the global sequence. -/
theorem c10_from_layer_excluded (content : String) :
    ∀ stage ∈ (TS.parse content).stages, ∀ l ∈ stage.layers,
      l.type ≠ "FROM" ∧ l ∈ (TS.parse content).layers :=
  TS.parse_stage_layers content

/-- C10 (witness): the invariant applied to the stage and layer of a concrete
two-line file. -/
theorem c10_from_layer_excluded_witness :
    ((TS.parse "FROM a\nRUN x").stages.getD 0 emptyStage ∈ (TS.parse "FROM a\nRUN x").stages
      ∧ ((TS.parse "FROM a\nRUN x").stages.getD 0 emptyStage).layers.getD 0 emptyLayer
          ∈ ((TS.parse "FROM a\nRUN x").stages.getD 0 emptyStage).layers)
    ∧ (((TS.parse "FROM a\nRUN x").stages.getD 0 emptyStage).layers.getD 0 emptyLayer).type
        ≠ "FROM"
    ∧ ((TS.parse "FROM a\nRUN x").stages.getD 0 emptyStage).layers.getD 0 emptyLayer
        ∈ (TS.parse "FROM a\nRUN x").layers :=
  ⟨⟨by decide, by decide⟩,
    (c10_from_layer_excluded "FROM a\nRUN x"
      ((TS.parse "FROM a\nRUN x").stages.getD 0 emptyStage) (by decide)
      (((TS.parse "FROM a\nRUN x").stages.getD 0 emptyStage).layers.getD 0 emptyLayer)
      (by decide)).1,
    (c10_from_layer_excluded "FROM a\nRUN x"
      ((TS.parse "FROM a\nRUN x").stages.getD 0 emptyStage) (by decide)
      (((TS.parse "FROM a\nRUN x").stages.getD 0 emptyStage).layers.getD 0 emptyLayer)
      (by decide)).2⟩

/-- C5 (counterexample): the claim fails as stated.  On `FROM debian` /
`RUN apt-get update` / `RUN apt-get install -y curl`, the TypeScript optimizer
emits exactly one high-severity suggestion and its only cited line number is 2
(the update RUN) — the install RUN's line 3 is not cited (the
`CacheOptimization` shape has a single `lineNumber` field).  The JavaScript
rule engine emits no high-severity update/install suggestion at all: its only
high result is `package-install-combined` citing line 3, while the
`layer-order` rule, because of its operator-precedence quirk, fires on the
`FROM`/`RUN` pair with medium severity citing line 1. -/
theorem c5_update_install_counterexample :
    ((CacheOpt.optimize (TS.parse "FROM debian\nRUN apt-get update\nRUN apt-get install -y curl")).map
      (fun o => (o.severity, o.lineNumber))) = [("high", 2)]
    ∧ ((Rules.analyze (JS.parse "FROM debian\nRUN apt-get update\nRUN apt-get install -y curl")).map
        (fun r => (r.rule, r.severity, r.issues.map (·.lineNum))))
      = [("package-install-combined", "high", [3]),
         ("run-cleaned", "medium", [3]),
         ("dockerignore", "low", []),
         ("layer-order", "medium", [1])]
    ∧ ¬ (∃ r ∈ Rules.analyze
          (JS.parse "FROM debian\nRUN apt-get update\nRUN apt-get install -y curl"),
        r.severity = "high" ∧ (2 : Int) ∈ r.issues.map (·.lineNum)
          ∧ (3 : Int) ∈ r.issues.map (·.lineNum)) := by
  have h : CacheOpt.optimize
        (TS.parse "FROM debian\nRUN apt-get update\nRUN apt-get install -y curl")
      = CacheOpt.runRules
        (TS.parse "FROM debian\nRUN apt-get update\nRUN apt-get install -y curl") :=
    List.mergeSort_of_sorted (by decide)
  rw [h]
  refine ⟨by decide, by decide, by decide⟩

/-- The adjacent-pair scan of `combineAptGetUpdateInstall` emits its suggestion
for every qualifying pair of consecutive RUN layers. -/
theorem CacheOpt.combineScan_fires :
    ∀ (layers : List TS.Layer) (i : Nat) (current next : TS.Layer),
      layers.get? i = some current → layers.get? (i + 1) = some next →
      current.type = "RUN" → next.type = "RUN" →
      strContains (joinSpace current.arguments) "apt-get update" = true →
      strContains (joinSpace current.arguments) "apt-get install" = false →
      strContains (joinSpace next.arguments) "apt-get install" = true →
      ({ lineNumber := (current.lineNumber : Int), severity := "high",
         issue := "apt-get update and install are in separate layers",
         suggestion := "Combine update and install into a single RUN to prevent cache invalidation issues",
         before := current.raw ++ "\n" ++ next.raw,
         after := "RUN apt-get update && apt-get install -y "
                    ++ CacheOpt.installCapture (joinSpace next.arguments)
                    ++ " \\\n    && rm -rf /var/lib/apt/lists/*" } : CacheOpt.CacheOptimization)
        ∈ CacheOpt.combineAptGetUpdateInstallScan layers := by
  intro layers
  induction layers with
  | nil => intro i current next hc _ _ _ _ _ _; cases hc
  | cons x rest ih =>
    intro i current next hc hn h1 h2 h3 h4 h5
    cases i with
    | zero =>
      cases rest with
      | nil => cases hn
      | cons y rest' =>
        have hx : x = current := by simpa using hc
        have hy : y = next := by simpa using hn
        subst hx
        subst hy
        simp only [CacheOpt.combineAptGetUpdateInstallScan]
        rw [if_pos, if_pos]
        · exact List.mem_append_left _ (List.mem_singleton.mpr rfl)
        · simp [h3, h4, h5]
        · simp [h1, h2]
    | succ j =>
      cases rest with
      | nil => cases hn
      | cons y rest' =>
        have := ih j current next (by simpa using hc) (by simpa using hn) h1 h2 h3 h4 h5
        simp only [CacheOpt.combineAptGetUpdateInstallScan]
        exact List.mem_append_right _ this

/-- C5 (amended): when a RUN layer whose joined command mentions
`apt-get update` but not `apt-get install` is immediately followed by a RUN
layer mentioning `apt-get install` (adjacency in the layer sequence, which
puts them in the same stage), the TypeScript rule engine emits a high-severity
"apt-get update and install are in separate layers" suggestion whose single
cited line number is the update RUN's line; both instructions' raw text
appears only in the suggestion's `before` snippet, so the install RUN's line
number itself is not cited. -/
theorem c5_update_install_amended (pr : TS.ParseResult) (i : Nat)
    (current next : TS.Layer)
    (hc : pr.layers.get? i = some current) (hn : pr.layers.get? (i + 1) = some next)
    (h1 : current.type = "RUN") (h2 : next.type = "RUN")
    (h3 : strContains (joinSpace current.arguments) "apt-get update" = true)
    (h4 : strContains (joinSpace current.arguments) "apt-get install" = false)
    (h5 : strContains (joinSpace next.arguments) "apt-get install" = true) :
    ∃ o ∈ CacheOpt.optimize pr, o.severity = "high"
      ∧ o.lineNumber = (current.lineNumber : Int)
      ∧ o.before = current.raw ++ "\n" ++ next.raw := by
  refine ⟨{ lineNumber := (current.lineNumber : Int), severity := "high",
            issue := "apt-get update and install are in separate layers",
            suggestion := "Combine update and install into a single RUN to prevent cache invalidation issues",
            before := current.raw ++ "\n" ++ next.raw,
            after := "RUN apt-get update && apt-get install -y "
                       ++ CacheOpt.installCapture (joinSpace next.arguments)
                       ++ " \\\n    && rm -rf /var/lib/apt/lists/*" }, ?_, rfl, rfl, rfl⟩
  apply List.mem_mergeSort.mpr
  apply List.mem_append_left
  apply List.mem_append_left
  apply List.mem_append_left
  apply List.mem_append_left
  apply List.mem_append_left
  apply List.mem_append_left
  exact CacheOpt.combineScan_fires pr.layers i current next hc hn h1 h2 h3 h4 h5

/-- C5 (witness): the amended claim applied to the adjacent update/install
pair at lines 2 and 3 of a concrete file. -/
theorem c5_update_install_witness :
    ∃ o ∈ CacheOpt.optimize
        (TS.parse "FROM debian\nRUN apt-get update\nRUN apt-get install -y curl"),
      o.severity = "high"
        ∧ o.lineNumber
            = (((TS.parse "FROM debian\nRUN apt-get update\nRUN apt-get install -y curl").layers.getD
                1 emptyLayer).lineNumber : Int)
        ∧ o.before
            = ((TS.parse "FROM debian\nRUN apt-get update\nRUN apt-get install -y curl").layers.getD
                1 emptyLayer).raw ++ "\n"
              ++ ((TS.parse "FROM debian\nRUN apt-get update\nRUN apt-get install -y curl").layers.getD
                2 emptyLayer).raw :=
  c5_update_install_amended
    (TS.parse "FROM debian\nRUN apt-get update\nRUN apt-get install -y curl") 1
    ((TS.parse "FROM debian\nRUN apt-get update\nRUN apt-get install -y curl").layers.getD
      1 emptyLayer)
    ((TS.parse "FROM debian\nRUN apt-get update\nRUN apt-get install -y curl").layers.getD
      2 emptyLayer)
    (by decide) (by decide) (by decide) (by decide) (by decide) (by decide) (by decide)

theorem CacheOpt.optSortLe_trans (a b c : CacheOpt.CacheOptimization)
    (hab : CacheOpt.sortLe a b) (hbc : CacheOpt.sortLe b c) : CacheOpt.sortLe a c := by
  simp only [CacheOpt.sortLe, decide_eq_true_eq] at *
  exact le_trans hab hbc

theorem CacheOpt.optSortLe_total (a b : CacheOpt.CacheOptimization) :
    CacheOpt.sortLe a b || CacheOpt.sortLe b a := by
  simp only [CacheOpt.sortLe, Bool.or_eq_true, decide_eq_true_eq]
  exact Int.le_total _ _

theorem Rules.sortLe_trans (a b c : Rules.RuleResult)
    (hab : Rules.sortLe a b) (hbc : Rules.sortLe b c) : Rules.sortLe a c := by
  simp only [Rules.sortLe, decide_eq_true_eq] at *
  exact le_trans hab hbc

theorem Rules.sortLe_total (a b : Rules.RuleResult) :
    Rules.sortLe a b || Rules.sortLe b a := by
  simp only [Rules.sortLe, Bool.or_eq_true, decide_eq_true_eq]
  exact Int.le_total _ _

/-- C2 (confirmed): for every parse result, the suggestion list produced by
`CacheOptimizer.optimize` has non-decreasing severity ranks, and the sort is
stable: any two suggestions discovered in that order by the rules (a pair
sublist of the concatenated rule output) with non-decreasing ranks appear in
the same relative order in the sorted output.  The same holds for the list
`Analyzer.generateSuggestions` builds from the JavaScript rule engine. -/
theorem c2_severity_sort_stable (pr : TS.ParseResult) (p : JS.ParserResult) :
    ((CacheOpt.optimize pr).map (fun o => severityRank o.severity)).Pairwise (· ≤ ·)
    ∧ (∀ a b : CacheOpt.CacheOptimization,
        severityRank a.severity ≤ severityRank b.severity →
        List.Sublist [a, b] (CacheOpt.runRules pr) →
        List.Sublist [a, b] (CacheOpt.optimize pr))
    ∧ ((Rules.generateSuggestions p).map (fun s => severityRank s.severity)).Pairwise (· ≤ ·)
    ∧ (∀ a b : Rules.RuleResult,
        severityRank a.severity ≤ severityRank b.severity →
        List.Sublist [a, b] (Rules.analyze p) →
        List.Sublist [a, b] (Rules.sortedIssues p)) := by
  refine ⟨?_, ?_, ?_, ?_⟩
  · have hs := List.sorted_mergeSort CacheOpt.optSortLe_trans CacheOpt.optSortLe_total
      (CacheOpt.runRules pr)
    rw [List.pairwise_map]
    refine hs.imp ?_
    intro a b hab
    simpa [CacheOpt.sortLe] using hab
  · intro a b hab hsub
    exact List.pair_sublist_mergeSort CacheOpt.optSortLe_trans CacheOpt.optSortLe_total
      (by simpa [CacheOpt.sortLe] using hab) hsub
  · have hs := List.sorted_mergeSort Rules.sortLe_trans Rules.sortLe_total (Rules.analyze p)
    show (((Rules.sortedIssues p).map (fun issue =>
        ({ severity := issue.severity, title := issue.title, description := issue.description,
           recommendation := issue.recommendation,
           lines := issue.issues.map (·.lineNum) } : Rules.Suggestion))).map
        (fun s => severityRank s.severity)).Pairwise (· ≤ ·)
    rw [List.map_map, List.pairwise_map]
    refine hs.imp ?_
    intro a b hab
    simpa [Rules.sortLe] using hab
  · intro a b hab hsub
    exact List.pair_sublist_mergeSort Rules.sortLe_trans Rules.sortLe_total
      (by simpa [Rules.sortLe] using hab) hsub

/-- C2 (witness): on a file producing two equal-severity (medium) cache-mount
suggestions, the pair keeps its discovery order through the sort. -/
theorem c2_severity_sort_stable_witness :
    severityRank ((CacheOpt.runRules
        (TS.parse "FROM x\nRUN npm install a\nRUN npm install b")).getD 0
          emptyOptimization).severity
      ≤ severityRank ((CacheOpt.runRules
        (TS.parse "FROM x\nRUN npm install a\nRUN npm install b")).getD 1
          emptyOptimization).severity
    ∧ List.Sublist
        [(CacheOpt.runRules (TS.parse "FROM x\nRUN npm install a\nRUN npm install b")).getD 0
            emptyOptimization,
         (CacheOpt.runRules (TS.parse "FROM x\nRUN npm install a\nRUN npm install b")).getD 1
            emptyOptimization]
        (CacheOpt.runRules (TS.parse "FROM x\nRUN npm install a\nRUN npm install b"))
    ∧ List.Sublist
        [(CacheOpt.runRules (TS.parse "FROM x\nRUN npm install a\nRUN npm install b")).getD 0
            emptyOptimization,
         (CacheOpt.runRules (TS.parse "FROM x\nRUN npm install a\nRUN npm install b")).getD 1
            emptyOptimization]
        (CacheOpt.optimize (TS.parse "FROM x\nRUN npm install a\nRUN npm install b")) :=
  ⟨by decide, by decide,
    (c2_severity_sort_stable (TS.parse "FROM x\nRUN npm install a\nRUN npm install b")
        (JS.parse "")).2.1 _ _ (by decide) (by decide)⟩

/-- C7 (counterexample): the claim fails as stated.  `ADD
https://example.com/x.tar.gz /app` — a URL with an archive extension — does
receive a low-severity prefer-COPY (`add-vs-copy`) suggestion: the rule has no
URL or archive-extension filter and fires for every ADD instruction. -/
theorem c7_prefer_copy_counterexample :
    ((Rules.analyze (JS.parse "FROM a\nADD https://example.com/x.tar.gz /app")).filterMap
      (fun r => if r.rule == "add-vs-copy" then some (r.severity, r.issues.map (·.lineNum))
                else none))
      = [("low", [2])] := by
  decide

/-- C7 (amended): the prefer-COPY rule fires exactly when at least one ADD
instruction is present, regardless of URLs or archive extensions in its
argument: with no ADD instruction the rule returns nothing, and with any ADD
instructions the engine's output contains a low-severity `add-vs-copy` result
listing every ADD instruction's line number — including `ADD ./app /app` and
`ADD https://example.com/x.tar.gz /app` alike. -/
theorem c7_prefer_copy_amended (p : JS.ParserResult) :
    (JS.getAddInstructions p = [] → Rules.addVsCopy p = none)
    ∧ (JS.getAddInstructions p ≠ [] →
        ∃ r ∈ Rules.analyze p, r.rule = "add-vs-copy" ∧ r.severity = "low" ∧
          r.issues.map (fun i => i.lineNum)
            = (JS.getAddInstructions p).map (fun a => (a.lineNum : Int))) := by
  constructor
  · intro h
    simp [Rules.addVsCopy, h]
  · intro h
    have hlen : ((JS.getAddInstructions p).length == 0) = false := by
      cases hadds : JS.getAddInstructions p with
      | nil => exact absurd hadds h
      | cons a rest => simp
    have hr : Rules.addVsCopy p = some
        { rule := "add-vs-copy", severity := "low",
          title := "Prefer COPY over ADD",
          description := "ADD has automatic features that can be surprising. COPY is more explicit and predictable.",
          recommendation := "Use COPY for local files. Only use ADD when you need URL downloading or automatic extraction.",
          issues := (JS.getAddInstructions p).map (fun a =>
            { lineNum := (a.lineNum : Int), instruction := a.raw,
              suggestion := some "Consider using COPY instead unless you need ADD features (URL extraction, automatic tar extraction)" }) } := by
      simp [Rules.addVsCopy, hlen]
    refine ⟨{ rule := "add-vs-copy", severity := "low",
              title := "Prefer COPY over ADD",
              description := "ADD has automatic features that can be surprising. COPY is more explicit and predictable.",
              recommendation := "Use COPY for local files. Only use ADD when you need URL downloading or automatic extraction.",
              issues := (JS.getAddInstructions p).map (fun a =>
                { lineNum := (a.lineNum : Int), instruction := a.raw,
                  suggestion := some "Consider using COPY instead unless you need ADD features (URL extraction, automatic tar extraction)" }) },
      ?_, rfl, rfl, ?_⟩
    · apply List.mem_filterMap.mpr
      refine ⟨Rules.addVsCopy p, ?_, hr⟩
      apply List.mem_map.mpr
      refine ⟨Rules.addVsCopy, ?_, rfl⟩
      simp [Rules.ruleList]
    · rw [List.map_map]
      rfl

/-- C7 (witness): the amended claim applied to a file with one local-path ADD
instruction on line 2. -/
theorem c7_prefer_copy_witness :
    JS.getAddInstructions (JS.parse "FROM a\nADD ./app /app") ≠ []
    ∧ ∃ r ∈ Rules.analyze (JS.parse "FROM a\nADD ./app /app"),
        r.rule = "add-vs-copy" ∧ r.severity = "low" ∧
          r.issues.map (fun i => i.lineNum)
            = (JS.getAddInstructions (JS.parse "FROM a\nADD ./app /app")).map
                (fun a => (a.lineNum : Int)) :=
  ⟨by decide, (c7_prefer_copy_amended (JS.parse "FROM a\nADD ./app /app")).2 (by decide)⟩

/-- C8 (counterexample): the claim fails as stated.  In `RUN x\nFROM a` the
RUN instruction precedes the first FROM: the JavaScript parser records it in
the global instruction sequence but, when the FROM arrives, discards the
implicit initial stage holding it, so the RUN belongs to no stage; the
TypeScript parser likewise leaves both the pre-FROM RUN layer and every FROM
layer outside all stage layer lists. -/
theorem c8_membership_counterexample :
    ¬ (∀ i ∈ (JS.parse "RUN x\nFROM a").instructions,
        (JS.parse "RUN x\nFROM a").stages.countP (fun st => decide (i ∈ st.instructions)) = 1) := by
  decide

/-- C8 (amended): each instruction belongs to at most one stage, in both
parsers.  For the JavaScript parser the membership is exactly one for every
instruction provided the file's first instruction is a `FROM` and every `FROM`
carries a non-empty base image; instructions preceding the first `FROM` (and
stages opened by an argument-less `FROM`) are dropped from the stage
partition, which is what "at most" accounts for. -/
theorem c8_membership_amended (content : String) :
    (∀ i ∈ (JS.parse content).instructions,
      (JS.parse content).stages.countP (fun st => decide (i ∈ st.instructions)) ≤ 1)
    ∧ (∀ l ∈ (TS.parse content).layers,
      (TS.parse content).stages.countP (fun st => decide (l ∈ st.layers)) ≤ 1)
    ∧ ((∀ i, (JS.parse content).instructions.head? = some i →
          upperStr i.directive = "FROM") →
       (∀ i ∈ (JS.parse content).instructions, upperStr i.directive = "FROM" →
          (JS.parseFromInstruction i).base ≠ "") →
       ∀ i ∈ (JS.parse content).instructions,
        (JS.parse content).stages.countP (fun st => decide (i ∈ st.instructions)) = 1) := by
  refine ⟨fun i _ => JS.parse_at_most_one content i,
    fun l _ => TS.layer_at_most_one content l,
    fun hfirst hbase i hi => JS.parse_exactly_one content hfirst hbase i hi⟩

/-- C8 (witness): the amended claim applied to a two-stage file opening with a
`FROM`, whose every instruction lands in exactly one stage. -/
theorem c8_membership_witness :
    ((JS.parse "FROM a\nRUN x\nFROM b\nRUN y").instructions.getD 1 emptyJSInstruction
        ∈ (JS.parse "FROM a\nRUN x\nFROM b\nRUN y").instructions)
    ∧ (JS.parse "FROM a\nRUN x\nFROM b\nRUN y").stages.countP
        (fun st => decide ((JS.parse "FROM a\nRUN x\nFROM b\nRUN y").instructions.getD
          1 emptyJSInstruction ∈ st.instructions)) ≤ 1
    ∧ (JS.parse "FROM a\nRUN x\nFROM b\nRUN y").stages.countP
        (fun st => decide ((JS.parse "FROM a\nRUN x\nFROM b\nRUN y").instructions.getD
          1 emptyJSInstruction ∈ st.instructions)) = 1 :=
  ⟨by decide,
    (c8_membership_amended "FROM a\nRUN x\nFROM b\nRUN y").1 _ (by decide),
    (c8_membership_amended "FROM a\nRUN x\nFROM b\nRUN y").2.2 (by decide) (by decide)
      _ (by decide)⟩
